import Mathlib

/-!
Verification of the convergence retry engine of the `aiops` request
processor (`src/main.go`) against its natural-language specification.

The Go program is shallowly embedded as executable Lean definitions:

* `parseTerraformError` mirrors `(*Service).parseTerraformError`;
  Go strings are handled through their character lists so that the
  line-splitting, substring and trimming behaviour of the Go `strings`
  package is modelled exactly.
* `executeActionE` mirrors `(*Service).executeAction` (the remote
  plan/apply/destroy dispatch on the action string).
* `loopGo` / `executeTerraformAction` mirror the bounded retry loop of
  `(*Service).executeTerraformAction`, line by line: workspace
  preparation, the regeneration block guarded by
  `attempt > 0 && response != nil`, the remote action, the
  success / exhausted / retry evaluation, and the `time.Sleep` calls.
* `handleTerraformRequest` mirrors the HTTP handler of the same name
  (defaulting of absent fields, the pre-loop code generation, and the
  final `response.Code` overwrite).

External collaborators (the gRPC executor and the LLM generation
service) are exactly the black boxes the specification declares them to
be; they are modelled as oracles (`Env`) indexed by the attempt number,
since the loop performs at most one call of each kind per attempt.  The
prompt builders and the code-fence trimming only shape the text sent to
and received from the generation oracle, so the oracle's answer subsumes
them.  Every externally visible step of a run (workspace preparation,
generation call, remote action call, sleep) is recorded in an event
trace so that counting and ordering properties can be stated.
-/

/-- Go string literal `"plan"` used by the action switch. -/
def planStr : String := "plan"

/-- Go string literal `"apply"` used by the action switch. -/
def applyStr : String := "apply"

/-- Go string literal `"destroy"` used by the action switch. -/
def destroyStr : String := "destroy"

/-- Prefix of the error built by `fmt.Errorf("unknown action: %s", action)`. -/
def unknownActionMsg : String := "unknown action: "

/-- Result of one remote executor operation: the `{success, output, error}`
triple of the `PlanResponse`/`ApplyResponse`/`DestroyResponse` protobuf
messages. -/
structure RemoteResp where
  success : Bool
  output : String
  error : String
deriving DecidableEq, Repr

/-- Go struct `TerraformResponse` (field order as in the source). -/
structure TerraformResponse where
  Success : Bool
  Code : String
  Output : String
  Error : String
deriving DecidableEq, Repr

/-- Go struct `TerraformError` produced by `parseTerraformError`. -/
structure TerraformError where
  Message : String
  TerraformOutput : String
  Resource : String
deriving DecidableEq, Repr

/-- Go struct `TerraformRequest` (the decoded JSON body). -/
structure TerraformRequest where
  Description : String
  Context : String
  Workspace : String
  Action : String
deriving DecidableEq, Repr

/-- Go struct `RetryConfig`; the delay is opaque data (seconds). -/
structure RetryConfig where
  MaxAttempts : Nat
  Delay : Nat
deriving DecidableEq, Repr

/-- The retry configuration hard-coded in `executeTerraformAction`:
5 attempts, 3 second delay. -/
def goRetryConfig : RetryConfig := ⟨5, 3⟩

/-- Oracles for the external collaborators, indexed by the attempt
number (the loop makes at most one call of each kind per attempt).
`prepR` is the outcome of `prepareWorkspace` (its three gRPC steps are
sequenced inside that call; any step's failure surfaces here as the
`.error` case).  `genR` is the outcome of `generateTerraformCode`
(the prompt built from the parsed error and the code-fence trimming are
absorbed by the oracle).  `planR`/`applyR`/`destroyR` are the remote
executor operations; their `.error` case is a transport-level error of
the gRPC call, their `.ok` case the executor's reported triple. -/
structure Env where
  prepR : Nat → Except String Unit
  genR : Nat → Except String String
  planR : Nat → Except String RemoteResp
  applyR : Nat → Except String RemoteResp
  destroyR : Nat → Except String RemoteResp

/-- Observable events of one orchestration run, in program order. -/
inductive Ev where
  | prep (attempt : Nat) (code : String)
  | genCall (attempt : Nat)
  | remotePlan (attempt : Nat)
  | remoteApply (attempt : Nat)
  | remoteDestroy (attempt : Nat)
  | sleep (attempt : Nat)
deriving DecidableEq, Repr

/-- Result of one orchestration run: the Go pair
`(*TerraformResponse, error)` plus the recorded event trace. -/
structure RunResult where
  resp : Option TerraformResponse
  err : Option String
  trace : List Ev
deriving DecidableEq, Repr

/-- Which remote operation the action string selects (`executeAction`'s
switch); the default branch performs no remote call. -/
def remoteOracle (env : Env) (action : String) (attempt : Nat) :
    Except String RemoteResp :=
  if action = planStr then env.planR attempt
  else if action = applyStr then env.applyR attempt
  else if action = destroyStr then env.destroyR attempt
  else .error (unknownActionMsg ++ action)

/-- Remote-call event emitted by `executeAction`: one event for the
selected operation, none in the default (unknown action) branch. -/
def remoteEv (action : String) (attempt : Nat) : List Ev :=
  if action = planStr then [.remotePlan attempt]
  else if action = applyStr then [.remoteApply attempt]
  else if action = destroyStr then [.remoteDestroy attempt]
  else []

/-- Conversion performed by each arm of `executeAction`'s switch: the
protobuf triple becomes a `TerraformResponse` whose `Code` field is left
at its zero value `""`. -/
def toResponse (r : RemoteResp) : TerraformResponse :=
  ⟨r.success, "", r.output, r.error⟩

/-- Embedding of `(*Service).executeAction`: dispatch on the action
string; a transport error of the selected call is returned as the Go
`(nil, err)` pair, an unknown action as
`(nil, fmt.Errorf("unknown action: %s", action))` with no remote call
made. -/
def executeActionE (env : Env) (attempt : Nat) (action : String) :
    Except String TerraformResponse × List Ev :=
  (match remoteOracle env action attempt with
   | .error e => .error e
   | .ok r => .ok (toResponse r),
   remoteEv action attempt)

/-- The regeneration block of the retry loop (guarded in Go by
`attempt > 0 && response != nil`).  When it runs, the previous response
is parsed (`parseTerraformError`) into the error-fix prompt and
`generateTerraformCode` is called; the oracle `genR` absorbs prompt and
trimming.  Returns the code to execute with, the generation error (Go:
`lastError = err` followed by `continue`), and the emitted events. -/
def regenPhase (env : Env) (attempt : Nat)
    (response : Option TerraformResponse) (lastCode : String) :
    String × Option String × List Ev :=
  match response with
  | none => (lastCode, none, [])
  | some _ =>
    if 0 < attempt then
      match env.genR attempt with
      | .error e => (lastCode, some e, [.genCall attempt])
      | .ok newCode => (newCode, none, [.genCall attempt])
    else (lastCode, none, [])

/-- The evaluation condition of the loop:
`response.Success && response.Error == ""`. -/
def isCleanSuccess (r : TerraformResponse) : Bool :=
  r.Success && (r.Error == "")

/-- The retry loop of `(*Service).executeTerraformAction`, indexed by the
number of remaining iterations (`remaining`); the Go loop counter is
`attempt = cfg.MaxAttempts - remaining`.  Each iteration mirrors the Go
body in order: `prepareWorkspace` (whose failure returns `(nil, err)`
for the whole run), the regeneration block (whose failure records
`lastError`, sleeps, and continues with the same code), the remote
action (whose transport error records `lastError`, resets `response` to
`nil` — the Go multi-assignment `response, err = ...` — sleeps, and
continues), and the evaluation: clean success returns the response
annotated `response.Code = lastCode`; the final attempt returns the
failing response with `err = nil`; otherwise sleep and continue.
Falling out of the loop returns the Go pair `(response, lastError)`. -/
def loopGo (env : Env) (cfg : RetryConfig) (action : String) :
    Nat → String → Option TerraformResponse → Option String → List Ev →
    RunResult
  | 0, _, response, lastError, trace => ⟨response, lastError, trace⟩
  | remaining + 1, lastCode, response, lastError, trace =>
    let a := cfg.MaxAttempts - (remaining + 1)
    match env.prepR a with
    | .error e => ⟨none, some e, trace ++ [.prep a lastCode]⟩
    | .ok _ =>
      match regenPhase env a response lastCode with
      | (_, some e, evs) =>
        loopGo env cfg action remaining lastCode response (some e)
          (trace ++ [.prep a lastCode] ++ evs ++ [.sleep a])
      | (newCode, none, evs) =>
        match executeActionE env a action with
        | (.error e, evs2) =>
          loopGo env cfg action remaining newCode none (some e)
            (trace ++ [.prep a lastCode] ++ evs ++ evs2 ++ [.sleep a])
        | (.ok resp, evs2) =>
          if isCleanSuccess resp then
            ⟨some { resp with Code := newCode }, none,
              trace ++ [.prep a lastCode] ++ evs ++ evs2⟩
          else if remaining = 0 then
            ⟨some resp, none, trace ++ [.prep a lastCode] ++ evs ++ evs2⟩
          else
            loopGo env cfg action remaining newCode (some resp) lastError
              (trace ++ [.prep a lastCode] ++ evs ++ evs2 ++ [.sleep a])

/-- One orchestration run of `(*Service).executeTerraformAction`: the
loop starts at attempt 0 with the caller-supplied code, no previous
response, no recorded error, and an empty trace. -/
def executeTerraformAction (env : Env) (cfg : RetryConfig)
    (action code : String) : RunResult :=
  loopGo env cfg action cfg.MaxAttempts code none none []

/-- The newline separator of `strings.Split(response.Error, "\n")`. -/
def newlineChar : Char := '\n'

/-- The marker token `"with"` that `parseTerraformError` searches for
(Terraform resource-diagnostic blocks start a `with <resource>,` line). -/
def markerChars : List Char := ['w', 'i', 't', 'h']

/-- Whitespace recognised by the model of `strings.TrimSpace` (the
whitespace characters occurring in executor output). -/
def isSpaceChar (c : Char) : Bool :=
  c = ' ' || c = '\t' || c = '\n' || c = '\r'

/-- Model of `strings.TrimSpace` on character lists. -/
def trimChars (l : List Char) : List Char :=
  ((l.dropWhile isSpaceChar).reverse.dropWhile isSpaceChar).reverse

/-- Whether `pat` is a prefix of `s` (character-exact). -/
def isPrefixCh : List Char → List Char → Bool
  | [], _ => true
  | _ :: _, [] => false
  | a :: as, b :: bs => a = b && isPrefixCh as bs

/-- Model of `strings.Contains(s, pat)`: `pat` occurs as a contiguous
substring of `s`. -/
def hasSubstr (pat : List Char) : List Char → Bool
  | [] => isPrefixCh pat []
  | c :: rest => isPrefixCh pat (c :: rest) || hasSubstr pat rest

/-- Model of `strings.Split(s, sep)` for a one-character separator:
`n` separators yield `n + 1` pieces, the empty string yields `[""]`. -/
def splitOnChar (sep : Char) : List Char → List (List Char)
  | [] => [[]]
  | c :: rest =>
    if c = sep then [] :: splitOnChar sep rest
    else
      match splitOnChar sep rest with
      | h :: t => (c :: h) :: t
      | [] => [[c]]

/-- The line scan of `parseTerraformError`: find the first line that
contains the marker and has a line two past it (Go:
`strings.Contains(line, "with") && i+2 < len(lines)`), and return that
line trimmed; lines that contain the marker too close to the end do not
break the loop. -/
def scanResource : List (List Char) → List Char
  | l :: b :: c :: rest =>
    if hasSubstr markerChars l then trimChars c
    else scanResource (b :: c :: rest)
  | _ :: rest => scanResource rest
  | [] => []

/-- Embedding of `(*Service).parseTerraformError`: always returns a
record (total function); `Message` and `TerraformOutput` copy the
response's error and output; `Resource` is filled by the line scan when
the error text contains the marker at all, and is left at its zero value
`""` otherwise (the Go representation of an absent resource). -/
def parseTerraformError (resp : TerraformResponse) : TerraformError :=
  { Message := resp.Error
    TerraformOutput := resp.Output
    Resource :=
      if hasSubstr markerChars resp.Error.data then
        ⟨scanResource (splitOnChar newlineChar resp.Error.data)⟩
      else "" }

/-- Index of the first line satisfying `p`, if any. -/
def firstIdxAux (p : List Char → Bool) : List (List Char) → Option Nat
  | [] => none
  | l :: rest =>
    if p l then some 0 else (firstIdxAux p rest).map (· + 1)

/-- The `n`-th line, if it exists. -/
def nthOpt : List (List Char) → Nat → Option (List Char)
  | [], _ => none
  | x :: _, 0 => some x
  | _ :: xs, n + 1 => nthOpt xs n

/-- Modelled from the spec's words (for comparison with the code's
`parseTerraformError`): the affected resource is "the whitespace-trimmed
2nd line after the first line of the error text containing the marker
token when such a line exists within bounds, and is absent otherwise". -/
def specAffectedResource (errText : String) : Option String :=
  match firstIdxAux (fun l => hasSubstr markerChars l)
      (splitOnChar newlineChar errText.data) with
  | none => none
  | some i =>
    match nthOpt (splitOnChar newlineChar errText.data) (i + 2) with
    | some l2 => some ⟨trimChars l2⟩
    | none => none

/-- Oracles for the calls the HTTP handler itself makes before the
loop: `GetMainTf` (reading the workspace's current code) and the
pre-loop `generateTerraformCode` call. -/
structure HandlerEnv where
  loopEnv : Env
  getMainTf : Except String String
  initialGen : Except String String

/-- The handler's action defaulting: only an absent (empty) action is
replaced by `"plan"`; every other string passes through unchanged. -/
def effectiveAction (req : TerraformRequest) : String :=
  if req.Action = "" then planStr else req.Action

/-- The handler's tail after the loop returns: a non-nil loop error is
reported as a 5xx (`.error`); otherwise, when the pre-loop `code` is
non-empty, `response.Code` is overwritten with it before responding.  A
nil response with nil error (impossible when `MaxAttempts ≥ 1`) would
dereference nil in Go; it is mapped to an error here. -/
def finishRun (code : String) (r : RunResult) :
    Except String (TerraformResponse × List Ev) :=
  match r.err with
  | some e => .error e
  | none =>
    match r.resp with
    | some resp =>
      .ok (if code = "" then resp else { resp with Code := code }, r.trace)
    | none => .error ("nil response")

/-- Embedding of `(*Service).handleTerraformRequest` after JSON
decoding: default the action (`effectiveAction`; the context default
only renames the remote target and is absorbed by the oracles), then —
unless the action is `"destroy"` — read the current code and either run
the pre-loop generation (whose failure is a 5xx before any attempt) or,
for `apply` with an empty description, reuse the existing code; finally
run the retry loop and post-process with `finishRun`. -/
def handleTerraformRequest (henv : HandlerEnv) (cfg : RetryConfig)
    (req : TerraformRequest) : Except String (TerraformResponse × List Ev) :=
  let action := effectiveAction req
  if action = destroyStr then
    finishRun "" (executeTerraformAction henv.loopEnv cfg action "")
  else
    let codeContent := match henv.getMainTf with
      | .ok c => c
      | .error _ => ""
    if action = applyStr ∧ req.Description = "" then
      finishRun codeContent
        (executeTerraformAction henv.loopEnv cfg action codeContent)
    else
      match henv.initialGen with
      | .error e => .error ("Failed to generate code: " ++ e)
      | .ok code =>
        finishRun code (executeTerraformAction henv.loopEnv cfg action code)

/-- Event classifier: workspace preparation. -/
def Ev.isPrepEv : Ev → Bool
  | .prep _ _ => true
  | _ => false

/-- Event classifier: generation-collaborator call. -/
def Ev.isGenEv : Ev → Bool
  | .genCall _ => true
  | _ => false

/-- Event classifier: remote plan/apply/destroy call. -/
def Ev.isRemoteEv : Ev → Bool
  | .remotePlan _ => true
  | .remoteApply _ => true
  | .remoteDestroy _ => true
  | _ => false

/-- Event classifier: policy-delay wait. -/
def Ev.isSleepEv : Ev → Bool
  | .sleep _ => true
  | _ => false

/-- Number of loop iterations started (one preparation per iteration). -/
def prepCount (t : List Ev) : Nat := t.countP Ev.isPrepEv

/-- Number of remote action invocations in a trace. -/
def remoteCount (t : List Ev) : Nat := t.countP Ev.isRemoteEv

/-- Number of generation-collaborator invocations in a trace. -/
def genCount (t : List Ev) : Nat := t.countP Ev.isGenEv

/-- Number of policy-delay waits in a trace. -/
def sleepCount (t : List Ev) : Nat := t.countP Ev.isSleepEv

theorem prepCount_append (s t : List Ev) :
    prepCount (s ++ t) = prepCount s + prepCount t :=
  List.countP_append _ _ _

theorem remoteCount_append (s t : List Ev) :
    remoteCount (s ++ t) = remoteCount s + remoteCount t :=
  List.countP_append _ _ _

theorem genCount_append (s t : List Ev) :
    genCount (s ++ t) = genCount s + genCount t :=
  List.countP_append _ _ _

theorem sleepCount_append (s t : List Ev) :
    sleepCount (s ++ t) = sleepCount s + sleepCount t :=
  List.countP_append _ _ _

theorem remoteCount_remoteEv_le (action : String) (a : Nat) :
    remoteCount (remoteEv action a) ≤ 1 := by
  unfold remoteEv
  split_ifs <;> simp [remoteCount, List.countP_cons, Ev.isRemoteEv]

theorem genCount_remoteEv (action : String) (a : Nat) :
    genCount (remoteEv action a) = 0 := by
  unfold remoteEv
  split_ifs <;> simp [genCount, List.countP_cons, Ev.isGenEv]

theorem prepCount_remoteEv (action : String) (a : Nat) :
    prepCount (remoteEv action a) = 0 := by
  unfold remoteEv
  split_ifs <;> simp [prepCount, List.countP_cons, Ev.isPrepEv]

theorem sleepCount_remoteEv (action : String) (a : Nat) :
    sleepCount (remoteEv action a) = 0 := by
  unfold remoteEv
  split_ifs <;> simp [sleepCount, List.countP_cons, Ev.isSleepEv]

theorem loopGo_zero (env : Env) (cfg : RetryConfig) (action lastCode : String)
    (response : Option TerraformResponse) (lastError : Option String)
    (trace : List Ev) :
    loopGo env cfg action 0 lastCode response lastError trace =
      ⟨response, lastError, trace⟩ := rfl

theorem loopGo_prep_err (env : Env) (cfg : RetryConfig)
    (action lastCode : String) (remaining : Nat)
    (response : Option TerraformResponse) (lastError : Option String)
    (trace : List Ev) (e : String)
    (hp : env.prepR (cfg.MaxAttempts - (remaining + 1)) = .error e) :
    loopGo env cfg action (remaining + 1) lastCode response lastError trace =
      ⟨none, some e,
        trace ++ [.prep (cfg.MaxAttempts - (remaining + 1)) lastCode]⟩ := by
  simp only [loopGo, hp]

theorem loopGo_gen_err (env : Env) (cfg : RetryConfig)
    (action lastCode : String) (remaining : Nat)
    (response : Option TerraformResponse) (lastError : Option String)
    (trace : List Ev) (e : String) (c : String) (evs : List Ev)
    (hp : env.prepR (cfg.MaxAttempts - (remaining + 1)) = .ok ())
    (hg : regenPhase env (cfg.MaxAttempts - (remaining + 1)) response lastCode
        = (c, some e, evs)) :
    loopGo env cfg action (remaining + 1) lastCode response lastError trace =
      loopGo env cfg action remaining lastCode response (some e)
        (trace ++ [.prep (cfg.MaxAttempts - (remaining + 1)) lastCode] ++ evs
          ++ [.sleep (cfg.MaxAttempts - (remaining + 1))]) := by
  simp only [loopGo, hp, hg]

theorem loopGo_exec_err (env : Env) (cfg : RetryConfig)
    (action lastCode : String) (remaining : Nat)
    (response : Option TerraformResponse) (lastError : Option String)
    (trace : List Ev) (e : String) (newCode : String) (evs evs2 : List Ev)
    (hp : env.prepR (cfg.MaxAttempts - (remaining + 1)) = .ok ())
    (hg : regenPhase env (cfg.MaxAttempts - (remaining + 1)) response lastCode
        = (newCode, none, evs))
    (hx : executeActionE env (cfg.MaxAttempts - (remaining + 1)) action
        = (.error e, evs2)) :
    loopGo env cfg action (remaining + 1) lastCode response lastError trace =
      loopGo env cfg action remaining newCode none (some e)
        (trace ++ [.prep (cfg.MaxAttempts - (remaining + 1)) lastCode] ++ evs
          ++ evs2 ++ [.sleep (cfg.MaxAttempts - (remaining + 1))]) := by
  simp only [loopGo, hp, hg, hx]

theorem loopGo_success (env : Env) (cfg : RetryConfig)
    (action lastCode : String) (remaining : Nat)
    (response : Option TerraformResponse) (lastError : Option String)
    (trace : List Ev) (newCode : String) (evs evs2 : List Ev)
    (resp : TerraformResponse)
    (hp : env.prepR (cfg.MaxAttempts - (remaining + 1)) = .ok ())
    (hg : regenPhase env (cfg.MaxAttempts - (remaining + 1)) response lastCode
        = (newCode, none, evs))
    (hx : executeActionE env (cfg.MaxAttempts - (remaining + 1)) action
        = (.ok resp, evs2))
    (hs : isCleanSuccess resp = true) :
    loopGo env cfg action (remaining + 1) lastCode response lastError trace =
      ⟨some { resp with Code := newCode }, none,
        trace ++ [.prep (cfg.MaxAttempts - (remaining + 1)) lastCode] ++ evs
          ++ evs2⟩ := by
  simp only [loopGo, hp, hg, hx, hs, if_true]

theorem loopGo_exhaust (env : Env) (cfg : RetryConfig)
    (action lastCode : String)
    (response : Option TerraformResponse) (lastError : Option String)
    (trace : List Ev) (newCode : String) (evs evs2 : List Ev)
    (resp : TerraformResponse)
    (hp : env.prepR (cfg.MaxAttempts - 1) = .ok ())
    (hg : regenPhase env (cfg.MaxAttempts - 1) response lastCode
        = (newCode, none, evs))
    (hx : executeActionE env (cfg.MaxAttempts - 1) action
        = (.ok resp, evs2))
    (hs : isCleanSuccess resp = false) :
    loopGo env cfg action 1 lastCode response lastError trace =
      ⟨some resp, none,
        trace ++ [.prep (cfg.MaxAttempts - 1) lastCode] ++ evs ++ evs2⟩ := by
  simp [loopGo, hp, hg, hx, hs]

theorem loopGo_fail_cont (env : Env) (cfg : RetryConfig)
    (action lastCode : String) (remaining : Nat)
    (response : Option TerraformResponse) (lastError : Option String)
    (trace : List Ev) (newCode : String) (evs evs2 : List Ev)
    (resp : TerraformResponse)
    (hp : env.prepR (cfg.MaxAttempts - (remaining + 2)) = .ok ())
    (hg : regenPhase env (cfg.MaxAttempts - (remaining + 2)) response lastCode
        = (newCode, none, evs))
    (hx : executeActionE env (cfg.MaxAttempts - (remaining + 2)) action
        = (.ok resp, evs2))
    (hs : isCleanSuccess resp = false) :
    loopGo env cfg action (remaining + 2) lastCode response lastError trace =
      loopGo env cfg action (remaining + 1) newCode (some resp) lastError
        (trace ++ [.prep (cfg.MaxAttempts - (remaining + 2)) lastCode] ++ evs
          ++ evs2 ++ [.sleep (cfg.MaxAttempts - (remaining + 2))]) := by
  conv_lhs => rw [loopGo]
  simp [hp, hg, hx, hs]

theorem regenPhase_none (env : Env) (a : Nat) (lastCode : String) :
    regenPhase env a none lastCode = (lastCode, none, []) := rfl

theorem regenPhase_evs (env : Env) (a : Nat)
    (response : Option TerraformResponse) (lastCode : String) :
    (regenPhase env a response lastCode).2.2 = [] ∨
      (regenPhase env a response lastCode).2.2 = [Ev.genCall a] := by
  unfold regenPhase
  rcases response with _ | prev
  · exact Or.inl rfl
  · split_ifs
    · rcases env.genR a with e | c <;> simp
    · exact Or.inl rfl

theorem executeActionE_snd (env : Env) (a : Nat) (action : String) :
    (executeActionE env a action).2 = remoteEv action a := rfl

@[simp] theorem prepCount_nil : prepCount [] = 0 := rfl

@[simp] theorem prepCount_prep_one (a : Nat) (c : String) :
    prepCount [Ev.prep a c] = 1 := rfl

@[simp] theorem prepCount_sleep_zero (a : Nat) :
    prepCount [Ev.sleep a] = 0 := rfl

@[simp] theorem prepCount_gen_zero (a : Nat) :
    prepCount [Ev.genCall a] = 0 := rfl

@[simp] theorem genCount_nil : genCount [] = 0 := rfl

@[simp] theorem genCount_prep_zero (a : Nat) (c : String) :
    genCount [Ev.prep a c] = 0 := rfl

@[simp] theorem genCount_sleep_zero (a : Nat) :
    genCount [Ev.sleep a] = 0 := rfl

@[simp] theorem genCount_gen_one (a : Nat) :
    genCount [Ev.genCall a] = 1 := rfl

@[simp] theorem remoteCount_nil : remoteCount [] = 0 := rfl

@[simp] theorem remoteCount_prep_zero (a : Nat) (c : String) :
    remoteCount [Ev.prep a c] = 0 := rfl

@[simp] theorem remoteCount_sleep_zero (a : Nat) :
    remoteCount [Ev.sleep a] = 0 := rfl

@[simp] theorem remoteCount_gen_zero (a : Nat) :
    remoteCount [Ev.genCall a] = 0 := rfl

@[simp] theorem sleepCount_nil : sleepCount [] = 0 := rfl

@[simp] theorem sleepCount_prep_zero (a : Nat) (c : String) :
    sleepCount [Ev.prep a c] = 0 := rfl

@[simp] theorem sleepCount_sleep_one (a : Nat) :
    sleepCount [Ev.sleep a] = 1 := rfl

@[simp] theorem sleepCount_gen_zero (a : Nat) :
    sleepCount [Ev.genCall a] = 0 := rfl

theorem loopGo_counts (env : Env) (cfg : RetryConfig) (action : String) :
    ∀ (remaining : Nat) (lastCode : String)
      (response : Option TerraformResponse) (lastError : Option String)
      (trace : List Ev),
      prepCount (loopGo env cfg action remaining lastCode response lastError
            trace).trace ≤ prepCount trace + remaining ∧
      remoteCount (loopGo env cfg action remaining lastCode response lastError
            trace).trace ≤ remoteCount trace + remaining ∧
      genCount (loopGo env cfg action remaining lastCode response lastError
            trace).trace ≤ genCount trace + remaining ∧
      (response = none →
        genCount (loopGo env cfg action remaining lastCode response lastError
              trace).trace ≤ genCount trace + (remaining - 1)) := by
  intro remaining
  induction remaining with
  | zero =>
    intro lastCode response lastError trace
    rw [loopGo_zero]
    exact ⟨Nat.le_add_right _ _, Nat.le_add_right _ _, Nat.le_add_right _ _,
      fun _ => Nat.le_add_right _ _⟩
  | succ n ih =>
    intro lastCode response lastError trace
    rcases hp : env.prepR (cfg.MaxAttempts - (n + 1)) with e | u
    · rw [loopGo_prep_err env cfg action lastCode n response lastError trace e hp]
      simp only [prepCount_append, remoteCount_append, genCount_append,
        prepCount_prep_one, remoteCount_prep_zero, genCount_prep_zero]
      refine ⟨by omega, by omega, by omega, fun _ => by omega⟩
    · cases u
      rcases hg : regenPhase env (cfg.MaxAttempts - (n + 1)) response lastCode
        with ⟨c, oe, evs⟩
      have hevs : evs = [] ∨ evs = [Ev.genCall (cfg.MaxAttempts - (n + 1))] := by
        have h := regenPhase_evs env (cfg.MaxAttempts - (n + 1)) response lastCode
        rw [hg] at h
        exact h
      have hge : genCount evs ≤ 1 := by
        rcases hevs with h | h <;> simp [h]
      have hpe : prepCount evs = 0 := by
        rcases hevs with h | h <;> simp [h]
      have hre : remoteCount evs = 0 := by
        rcases hevs with h | h <;> simp [h]
      have hgen0 : response = none → genCount evs = 0 := by
        intro hnone
        rw [hnone, regenPhase_none] at hg
        cases hg
        simp
      rcases oe with _ | e
      · rcases hx : executeActionE env (cfg.MaxAttempts - (n + 1)) action
          with ⟨er, evs2⟩
        have hevs2 : evs2 = remoteEv action (cfg.MaxAttempts - (n + 1)) := by
          have h := executeActionE_snd env (cfg.MaxAttempts - (n + 1)) action
          rw [hx] at h
          exact h
        have hre2 : remoteCount evs2 ≤ 1 := by
          rw [hevs2]; exact remoteCount_remoteEv_le action _
        have hpe2 : prepCount evs2 = 0 := by
          rw [hevs2]; exact prepCount_remoteEv action _
        have hge2 : genCount evs2 = 0 := by
          rw [hevs2]; exact genCount_remoteEv action _
        rcases er with e2 | resp
        · rw [loopGo_exec_err env cfg action lastCode n response lastError trace
            e2 c evs evs2 hp hg hx]
          obtain ⟨ih1, ih2, ih3, ih4⟩ := ih c none (some e2)
            (trace ++ [Ev.prep (cfg.MaxAttempts - (n + 1)) lastCode] ++ evs
              ++ evs2 ++ [Ev.sleep (cfg.MaxAttempts - (n + 1))])
          have ih4' := ih4 rfl
          simp only [prepCount_append, remoteCount_append, genCount_append,
            prepCount_prep_one, prepCount_sleep_zero, remoteCount_prep_zero,
            remoteCount_sleep_zero, genCount_prep_zero, genCount_sleep_zero]
            at ih1 ih2 ih3 ih4'
          refine ⟨by omega, by omega, by omega, fun hnone => ?_⟩
          have h0 := hgen0 hnone
          omega
        · cases hs : isCleanSuccess resp
          · match n with
            | 0 =>
              rw [loopGo_exhaust env cfg action lastCode response lastError trace
                c evs evs2 resp hp hg hx hs]
              simp only [prepCount_append, remoteCount_append, genCount_append,
                prepCount_prep_one, remoteCount_prep_zero, genCount_prep_zero]
              refine ⟨by omega, by omega, by omega, fun hnone => ?_⟩
              have h0 := hgen0 hnone
              omega
            | m + 1 =>
              rw [loopGo_fail_cont env cfg action lastCode m response lastError
                trace c evs evs2 resp hp hg hx hs]
              obtain ⟨ih1, ih2, ih3, _⟩ := ih c (some resp) lastError
                (trace ++ [Ev.prep (cfg.MaxAttempts - (m + 2)) lastCode] ++ evs
                  ++ evs2 ++ [Ev.sleep (cfg.MaxAttempts - (m + 2))])
              simp only [prepCount_append, remoteCount_append, genCount_append,
                prepCount_prep_one, prepCount_sleep_zero, remoteCount_prep_zero,
                remoteCount_sleep_zero, genCount_prep_zero, genCount_sleep_zero]
                at ih1 ih2 ih3
              refine ⟨by omega, by omega, by omega, fun hnone => ?_⟩
              have h0 := hgen0 hnone
              omega
          · rw [loopGo_success env cfg action lastCode n response lastError trace
              c evs evs2 resp hp hg hx hs]
            simp only [prepCount_append, remoteCount_append, genCount_append,
              prepCount_prep_one, remoteCount_prep_zero, genCount_prep_zero]
            refine ⟨by omega, by omega, by omega, fun hnone => ?_⟩
            have h0 := hgen0 hnone
            omega
      · rw [loopGo_gen_err env cfg action lastCode n response lastError trace
          e c evs hp hg]
        obtain ⟨ih1, ih2, ih3, _⟩ := ih lastCode response (some e)
          (trace ++ [Ev.prep (cfg.MaxAttempts - (n + 1)) lastCode] ++ evs
            ++ [Ev.sleep (cfg.MaxAttempts - (n + 1))])
        simp only [prepCount_append, remoteCount_append, genCount_append,
          prepCount_prep_one, prepCount_sleep_zero, remoteCount_prep_zero,
          remoteCount_sleep_zero, genCount_prep_zero, genCount_sleep_zero]
          at ih1 ih2 ih3
        refine ⟨by omega, by omega, by omega, fun hnone => ?_⟩
        rw [hnone, regenPhase_none] at hg
        simp [Prod.ext_iff] at hg

theorem loopGo_traceMono (env : Env) (cfg : RetryConfig) (action : String) :
    ∀ (remaining : Nat) (lastCode : String)
      (response : Option TerraformResponse) (lastError : Option String)
      (trace : List Ev),
      ∃ rest, (loopGo env cfg action remaining lastCode response lastError
          trace).trace = trace ++ rest := by
  intro remaining
  induction remaining with
  | zero =>
    intro lastCode response lastError trace
    exact ⟨[], by rw [loopGo_zero]; simp⟩
  | succ n ih =>
    intro lastCode response lastError trace
    rcases hp : env.prepR (cfg.MaxAttempts - (n + 1)) with e | u
    · exact ⟨[Ev.prep (cfg.MaxAttempts - (n + 1)) lastCode], by
        rw [loopGo_prep_err env cfg action lastCode n response lastError trace e hp]⟩
    · cases u
      rcases hg : regenPhase env (cfg.MaxAttempts - (n + 1)) response lastCode
        with ⟨c, oe, evs⟩
      rcases oe with _ | e
      · rcases hx : executeActionE env (cfg.MaxAttempts - (n + 1)) action
          with ⟨er, evs2⟩
        rcases er with e2 | resp
        · obtain ⟨rest, hrest⟩ := ih c none (some e2)
            (trace ++ [Ev.prep (cfg.MaxAttempts - (n + 1)) lastCode] ++ evs
              ++ evs2 ++ [Ev.sleep (cfg.MaxAttempts - (n + 1))])
          refine ⟨[Ev.prep (cfg.MaxAttempts - (n + 1)) lastCode] ++ evs ++ evs2
            ++ [Ev.sleep (cfg.MaxAttempts - (n + 1))] ++ rest, ?_⟩
          rw [loopGo_exec_err env cfg action lastCode n response lastError trace
            e2 c evs evs2 hp hg hx, hrest]
          simp [List.append_assoc]
        · cases hs : isCleanSuccess resp
          · match n with
            | 0 =>
              refine ⟨[Ev.prep (cfg.MaxAttempts - 1) lastCode] ++ evs ++ evs2, ?_⟩
              rw [loopGo_exhaust env cfg action lastCode response lastError trace
                c evs evs2 resp hp hg hx hs]
              simp [List.append_assoc]
            | m + 1 =>
              obtain ⟨rest, hrest⟩ := ih c (some resp) lastError
                (trace ++ [Ev.prep (cfg.MaxAttempts - (m + 2)) lastCode] ++ evs
                  ++ evs2 ++ [Ev.sleep (cfg.MaxAttempts - (m + 2))])
              refine ⟨[Ev.prep (cfg.MaxAttempts - (m + 2)) lastCode] ++ evs
                ++ evs2 ++ [Ev.sleep (cfg.MaxAttempts - (m + 2))] ++ rest, ?_⟩
              rw [loopGo_fail_cont env cfg action lastCode m response lastError
                trace c evs evs2 resp hp hg hx hs, hrest]
              simp [List.append_assoc]
          · refine ⟨[Ev.prep (cfg.MaxAttempts - (n + 1)) lastCode] ++ evs
              ++ evs2, ?_⟩
            rw [loopGo_success env cfg action lastCode n response lastError trace
              c evs evs2 resp hp hg hx hs]
            simp [List.append_assoc]
      · obtain ⟨rest, hrest⟩ := ih lastCode response (some e)
          (trace ++ [Ev.prep (cfg.MaxAttempts - (n + 1)) lastCode] ++ evs
            ++ [Ev.sleep (cfg.MaxAttempts - (n + 1))])
        refine ⟨[Ev.prep (cfg.MaxAttempts - (n + 1)) lastCode] ++ evs
          ++ [Ev.sleep (cfg.MaxAttempts - (n + 1))] ++ rest, ?_⟩
        rw [loopGo_gen_err env cfg action lastCode n response lastError trace
          e c evs hp hg, hrest]
        simp [List.append_assoc]

theorem loopGo_succ_trace (env : Env) (cfg : RetryConfig) (action : String)
    (remaining : Nat) (lastCode : String)
    (response : Option TerraformResponse) (lastError : Option String)
    (trace : List Ev) :
    ∃ rest, (loopGo env cfg action (remaining + 1) lastCode response lastError
        trace).trace
      = trace ++ [Ev.prep (cfg.MaxAttempts - (remaining + 1)) lastCode] ++ rest := by
  rcases hp : env.prepR (cfg.MaxAttempts - (remaining + 1)) with e | u
  · exact ⟨[], by
      rw [loopGo_prep_err env cfg action lastCode remaining response lastError
        trace e hp]
      simp⟩
  · cases u
    rcases hg : regenPhase env (cfg.MaxAttempts - (remaining + 1)) response
      lastCode with ⟨c, oe, evs⟩
    rcases oe with _ | e
    · rcases hx : executeActionE env (cfg.MaxAttempts - (remaining + 1)) action
        with ⟨er, evs2⟩
      rcases er with e2 | resp
      · obtain ⟨rest, hrest⟩ := loopGo_traceMono env cfg action remaining c none
          (some e2) (trace ++ [Ev.prep (cfg.MaxAttempts - (remaining + 1))
            lastCode] ++ evs ++ evs2
            ++ [Ev.sleep (cfg.MaxAttempts - (remaining + 1))])
        refine ⟨evs ++ evs2 ++ [Ev.sleep (cfg.MaxAttempts - (remaining + 1))]
          ++ rest, ?_⟩
        rw [loopGo_exec_err env cfg action lastCode remaining response lastError
          trace e2 c evs evs2 hp hg hx, hrest]
        simp [List.append_assoc]
      · cases hs : isCleanSuccess resp
        · match remaining with
          | 0 =>
            refine ⟨evs ++ evs2, ?_⟩
            rw [loopGo_exhaust env cfg action lastCode response lastError trace
              c evs evs2 resp hp hg hx hs]
            simp [List.append_assoc]
          | m + 1 =>
            obtain ⟨rest, hrest⟩ := loopGo_traceMono env cfg action (m + 1) c
              (some resp) lastError
              (trace ++ [Ev.prep (cfg.MaxAttempts - (m + 2)) lastCode] ++ evs
                ++ evs2 ++ [Ev.sleep (cfg.MaxAttempts - (m + 2))])
            refine ⟨evs ++ evs2 ++ [Ev.sleep (cfg.MaxAttempts - (m + 2))]
              ++ rest, ?_⟩
            rw [loopGo_fail_cont env cfg action lastCode m response lastError
              trace c evs evs2 resp hp hg hx hs, hrest]
            simp [List.append_assoc]
        · refine ⟨evs ++ evs2, ?_⟩
          rw [loopGo_success env cfg action lastCode remaining response lastError
            trace c evs evs2 resp hp hg hx hs]
          simp [List.append_assoc]
    · obtain ⟨rest, hrest⟩ := loopGo_traceMono env cfg action remaining lastCode
        response (some e)
        (trace ++ [Ev.prep (cfg.MaxAttempts - (remaining + 1)) lastCode] ++ evs
          ++ [Ev.sleep (cfg.MaxAttempts - (remaining + 1))])
      refine ⟨evs ++ [Ev.sleep (cfg.MaxAttempts - (remaining + 1))] ++ rest, ?_⟩
      rw [loopGo_gen_err env cfg action lastCode remaining response lastError
        trace e c evs hp hg, hrest]
      simp [List.append_assoc]

theorem regenPhase_ok (env : Env) (a : Nat)
    (response : Option TerraformResponse) (lastCode gval : String)
    (hgen : env.genR a = .ok gval) :
    ∃ c evs, regenPhase env a response lastCode = (c, none, evs) := by
  unfold regenPhase
  rcases response with _ | prev
  · exact ⟨lastCode, [], rfl⟩
  · split_ifs with h
    · rw [hgen]
      exact ⟨gval, [Ev.genCall a], rfl⟩
    · exact ⟨lastCode, [], rfl⟩

theorem executeActionE_ok (env : Env) (a : Nat) (action : String)
    (r : RemoteResp) (h : remoteOracle env action a = .ok r) :
    executeActionE env a action = (.ok (toResponse r), remoteEv action a) := by
  unfold executeActionE
  rw [h]

theorem loopGo_allFail (env : Env) (cfg : RetryConfig) (action : String)
    (f : Nat → RemoteResp) (g : Nat → String) :
    ∀ (remaining : Nat), 1 ≤ remaining → remaining ≤ cfg.MaxAttempts →
    (∀ k, cfg.MaxAttempts - remaining ≤ k → k < cfg.MaxAttempts →
        env.prepR k = .ok ()) →
    (∀ k, env.genR k = .ok (g k)) →
    (∀ k, cfg.MaxAttempts - remaining ≤ k → k < cfg.MaxAttempts →
        remoteOracle env action k = .ok (f k)) →
    (∀ k, cfg.MaxAttempts - remaining ≤ k → k < cfg.MaxAttempts →
        isCleanSuccess (toResponse (f k)) = false) →
    ∀ (lastCode : String) (response : Option TerraformResponse)
      (lastError : Option String) (trace : List Ev),
      (loopGo env cfg action remaining lastCode response lastError trace).resp
          = some (toResponse (f (cfg.MaxAttempts - 1))) ∧
      (loopGo env cfg action remaining lastCode response lastError trace).err
          = none := by
  intro remaining
  induction remaining with
  | zero => intro h1; omega
  | succ n ih =>
    intro _ h2 hprep hgen hrem hfail lastCode response lastError trace
    have ha1 : cfg.MaxAttempts - (n + 1) ≤ cfg.MaxAttempts - (n + 1) := le_refl _
    have ha2 : cfg.MaxAttempts - (n + 1) < cfg.MaxAttempts := by omega
    have hp := hprep _ ha1 ha2
    obtain ⟨c, evs, hg⟩ := regenPhase_ok env (cfg.MaxAttempts - (n + 1))
      response lastCode (g (cfg.MaxAttempts - (n + 1))) (hgen _)
    have hx := executeActionE_ok env (cfg.MaxAttempts - (n + 1)) action
      (f (cfg.MaxAttempts - (n + 1))) (hrem _ ha1 ha2)
    have hs := hfail _ ha1 ha2
    match n with
    | 0 =>
      rw [loopGo_exhaust env cfg action lastCode response lastError trace
        c evs (remoteEv action (cfg.MaxAttempts - 1))
        (toResponse (f (cfg.MaxAttempts - 1))) hp hg hx hs]
      exact ⟨rfl, rfl⟩
    | m + 1 =>
      rw [loopGo_fail_cont env cfg action lastCode m response lastError trace
        c evs (remoteEv action (cfg.MaxAttempts - (m + 2)))
        (toResponse (f (cfg.MaxAttempts - (m + 2)))) hp hg hx hs]
      exact ih (by omega) (by omega)
        (fun k hk1 hk2 => hprep k (by omega) hk2) hgen
        (fun k hk1 hk2 => hrem k (by omega) hk2)
        (fun k hk1 hk2 => hfail k (by omega) hk2)
        c (some (toResponse (f (cfg.MaxAttempts - (m + 2))))) lastError _

theorem executeActionE_unknown (env : Env) (a : Nat) (action : String)
    (h1 : action ≠ planStr) (h2 : action ≠ applyStr)
    (h3 : action ≠ destroyStr) :
    executeActionE env a action = (.error (unknownActionMsg ++ action), []) := by
  unfold executeActionE remoteOracle remoteEv
  simp [h1, h2, h3]

theorem loopGo_unknown (env : Env) (cfg : RetryConfig) (action : String)
    (h1 : action ≠ planStr) (h2 : action ≠ applyStr)
    (h3 : action ≠ destroyStr)
    (hprep : ∀ k, env.prepR k = .ok ()) :
    ∀ remaining, 1 ≤ remaining →
    ∀ (lastCode : String) (lastError : Option String) (trace : List Ev),
      ∃ evs,
        loopGo env cfg action remaining lastCode none lastError trace
          = ⟨none, some (unknownActionMsg ++ action), trace ++ evs⟩ ∧
        remoteCount evs = 0 ∧ prepCount evs = remaining ∧ genCount evs = 0 := by
  intro remaining
  induction remaining with
  | zero => intro h; omega
  | succ n ih =>
    intro _ lastCode lastError trace
    have step := loopGo_exec_err env cfg action lastCode n none lastError trace
      (unknownActionMsg ++ action) lastCode [] [] (hprep _)
      (regenPhase_none env _ lastCode)
      (executeActionE_unknown env _ action h1 h2 h3)
    match n with
    | 0 =>
      refine ⟨[Ev.prep (cfg.MaxAttempts - 1) lastCode]
        ++ [Ev.sleep (cfg.MaxAttempts - 1)], ?_, ?_, ?_, ?_⟩
      · rw [step, loopGo_zero]
        simp
      · simp only [remoteCount_append, remoteCount_prep_zero,
          remoteCount_sleep_zero]
      · simp only [prepCount_append, prepCount_prep_one, prepCount_sleep_zero]
      · simp only [genCount_append, genCount_prep_zero, genCount_sleep_zero]
    | m + 1 =>
      obtain ⟨evs, heq, hr, hpc, hgc⟩ := ih (by omega) lastCode
        (some (unknownActionMsg ++ action))
        (trace ++ [Ev.prep (cfg.MaxAttempts - (m + 2)) lastCode] ++ [] ++ []
          ++ [Ev.sleep (cfg.MaxAttempts - (m + 2))])
      refine ⟨[Ev.prep (cfg.MaxAttempts - (m + 2)) lastCode]
        ++ [Ev.sleep (cfg.MaxAttempts - (m + 2))] ++ evs, ?_, ?_, ?_, ?_⟩
      · rw [step, heq]
        simp
      · simp only [remoteCount_append, remoteCount_prep_zero,
          remoteCount_sleep_zero, hr]
      · simp only [prepCount_append, prepCount_prep_one, prepCount_sleep_zero,
          hpc]
        omega
      · simp only [genCount_append, genCount_prep_zero, genCount_sleep_zero,
          hgc]

theorem regenPhase_evs_pos (env : Env) (a : Nat)
    (response : Option TerraformResponse) (lastCode : String) :
    (regenPhase env a response lastCode).2.2 = [] ∨
      (0 < a ∧ (regenPhase env a response lastCode).2.2 = [Ev.genCall a]) := by
  unfold regenPhase
  rcases response with _ | prev
  · exact Or.inl rfl
  · split_ifs with h
    · rcases env.genR a with e | c <;> simp [h]
    · exact Or.inl rfl

theorem loopGo_no_gen0 (env : Env) (cfg : RetryConfig) (action : String) :
    ∀ (remaining : Nat) (lastCode : String)
      (response : Option TerraformResponse) (lastError : Option String)
      (trace : List Ev),
      Ev.genCall 0 ∉ trace →
      Ev.genCall 0 ∉ (loopGo env cfg action remaining lastCode response
          lastError trace).trace := by
  intro remaining
  induction remaining with
  | zero =>
    intro lastCode response lastError trace h
    rw [loopGo_zero]
    exact h
  | succ n ih =>
    intro lastCode response lastError trace h
    have hevs : ∀ x, x ∈ (regenPhase env (cfg.MaxAttempts - (n + 1)) response
        lastCode).2.2 → x ≠ Ev.genCall 0 := by
      intro x hx
      rcases regenPhase_evs_pos env (cfg.MaxAttempts - (n + 1)) response
        lastCode with he | ⟨hpos, he⟩
      · rw [he] at hx
        simp at hx
      · rw [he] at hx
        simp at hx
        rw [hx]
        intro hcon
        have ha0 : cfg.MaxAttempts - (n + 1) = 0 := by injection hcon
        omega
    have hrem : ∀ x, x ∈ remoteEv action (cfg.MaxAttempts - (n + 1)) →
        x ≠ Ev.genCall 0 := by
      intro x hx
      unfold remoteEv at hx
      split_ifs at hx <;> simp at hx <;> simp [hx]
    rcases hp : env.prepR (cfg.MaxAttempts - (n + 1)) with e | u
    · rw [loopGo_prep_err env cfg action lastCode n response lastError trace e hp]
      simp only [RunResult.trace]
      intro hmem
      rcases List.mem_append.mp hmem with hmem | hmem
      · exact h hmem
      · simp at hmem
    · cases u
      rcases hg : regenPhase env (cfg.MaxAttempts - (n + 1)) response lastCode
        with ⟨c, oe, evs⟩
      have hevs' : ∀ x, x ∈ evs → x ≠ Ev.genCall 0 := by
        intro x hx
        exact hevs x (by rw [hg]; exact hx)
      rcases oe with _ | e
      · rcases hx : executeActionE env (cfg.MaxAttempts - (n + 1)) action
          with ⟨er, evs2⟩
        have hevs2 : evs2 = remoteEv action (cfg.MaxAttempts - (n + 1)) := by
          have hh := executeActionE_snd env (cfg.MaxAttempts - (n + 1)) action
          rw [hx] at hh
          exact hh
        have hrem' : ∀ x, x ∈ evs2 → x ≠ Ev.genCall 0 := by
          intro x hxx
          exact hrem x (by rw [← hevs2]; exact hxx)
        have hbig : Ev.genCall 0 ∉
            trace ++ [Ev.prep (cfg.MaxAttempts - (n + 1)) lastCode] ++ evs
              ++ evs2 ++ [Ev.sleep (cfg.MaxAttempts - (n + 1))] := by
          intro hmem
          simp only [List.mem_append] at hmem
          rcases hmem with ((((hmem | hmem) | hmem) | hmem) | hmem)
          · exact h hmem
          · simp at hmem
          · exact hevs' _ hmem rfl
          · exact hrem' _ hmem rfl
          · simp at hmem
        rcases er with e2 | resp
        · rw [loopGo_exec_err env cfg action lastCode n response lastError trace
            e2 c evs evs2 hp hg hx]
          exact ih c none (some e2) _ hbig
        · cases hs : isCleanSuccess resp
          · match n with
            | 0 =>
              rw [loopGo_exhaust env cfg action lastCode response lastError
                trace c evs evs2 resp hp hg hx hs]
              simp only [RunResult.trace]
              intro hmem
              simp only [List.mem_append] at hmem
              rcases hmem with (((hmem | hmem) | hmem) | hmem)
              · exact h hmem
              · simp at hmem
              · exact hevs' _ hmem rfl
              · exact hrem' _ hmem rfl
            | m + 1 =>
              rw [loopGo_fail_cont env cfg action lastCode m response lastError
                trace c evs evs2 resp hp hg hx hs]
              exact ih c (some resp) lastError _ hbig
          · rw [loopGo_success env cfg action lastCode n response lastError
              trace c evs evs2 resp hp hg hx hs]
            simp only [RunResult.trace]
            intro hmem
            simp only [List.mem_append] at hmem
            rcases hmem with (((hmem | hmem) | hmem) | hmem)
            · exact h hmem
            · simp at hmem
            · exact hevs' _ hmem rfl
            · exact hrem' _ hmem rfl
      · rw [loopGo_gen_err env cfg action lastCode n response lastError trace
          e c evs hp hg]
        refine ih lastCode response (some e) _ ?_
        intro hmem
        simp only [List.mem_append] at hmem
        rcases hmem with (((hmem | hmem) | hmem) | hmem)
        · exact h hmem
        · simp at hmem
        · exact hevs' _ hmem rfl
        · simp at hmem

/-- Abstract token for the delay-placement property: `P` marks the start
of an attempt (its workspace preparation), `S` a policy-delay wait. -/
inductive Tok where
  | P
  | S
deriving DecidableEq, Repr

/-- Projection of a trace onto preparation/sleep tokens. -/
def psTok : Ev → Option Tok
  | .prep _ _ => some Tok.P
  | .sleep _ => some Tok.S
  | _ => none

/-- The preparation/sleep skeleton of a trace. -/
def psTokens (t : List Ev) : List Tok := t.filterMap psTok

/-- The token expected after `e` in a strictly alternating sequence. -/
def flipTok : Tok → Tok
  | Tok.P => Tok.S
  | Tok.S => Tok.P

/-- Checks strict alternation starting from expected token `e`; accepts
any prefix-closed alternating sequence (so `P`, `P S`, `P S P`, ... when
started at `P`): this is the language "exactly one delay between any two
consecutive attempts, no leading delay, at most one trailing delay". -/
def altRun : Tok → List Tok → Bool
  | _, [] => true
  | e, t :: rest => if t = e then altRun (flipTok e) rest else false

/-- Last token of a token list. -/
def lastTok : List Tok → Option Tok
  | [] => none
  | [t] => some t
  | _ :: t :: ts => lastTok (t :: ts)

theorem psTokens_append (s t : List Ev) :
    psTokens (s ++ t) = psTokens s ++ psTokens t :=
  List.filterMap_append s t psTok

@[simp] theorem psTokens_nil : psTokens [] = [] := rfl

@[simp] theorem psTokens_prep (a : Nat) (c : String) :
    psTokens [Ev.prep a c] = [Tok.P] := rfl

@[simp] theorem psTokens_sleep (a : Nat) :
    psTokens [Ev.sleep a] = [Tok.S] := rfl

@[simp] theorem psTokens_gen (a : Nat) :
    psTokens [Ev.genCall a] = [] := rfl

theorem psTokens_remoteEv (action : String) (a : Nat) :
    psTokens (remoteEv action a) = [] := by
  unfold remoteEv
  split_ifs <;> rfl

theorem psTokens_regen_evs (env : Env) (a : Nat)
    (response : Option TerraformResponse) (lastCode : String) :
    psTokens (regenPhase env a response lastCode).2.2 = [] := by
  rcases regenPhase_evs env a response lastCode with h | h <;> rw [h] <;> rfl

@[simp] theorem altRun_PS (l : List Tok) :
    altRun Tok.P (Tok.P :: Tok.S :: l) = altRun Tok.P l := by
  simp [altRun, flipTok]

@[simp] theorem altRun_P_single : altRun Tok.P [Tok.P] = true := by
  simp [altRun]

@[simp] theorem lastTok_cons_cons (a b : Tok) (l : List Tok) :
    lastTok (a :: b :: l) = lastTok (b :: l) := rfl

theorem lastTok_PS (l : List Tok) (h : l ≠ []) :
    lastTok (Tok.P :: Tok.S :: l) = lastTok l := by
  rcases l with _ | ⟨x, xs⟩
  · exact absurd rfl h
  · rfl

@[simp] theorem psTokens_cons_prep (a : Nat) (c : String) (l : List Ev) :
    psTokens (Ev.prep a c :: l) = Tok.P :: psTokens l := rfl

@[simp] theorem psTokens_cons_sleep (a : Nat) (l : List Ev) :
    psTokens (Ev.sleep a :: l) = Tok.S :: psTokens l := rfl

@[simp] theorem psTokens_cons_gen (a : Nat) (l : List Ev) :
    psTokens (Ev.genCall a :: l) = psTokens l := rfl

/-- Delay-placement invariant of the retry loop: the preparation/sleep
skeleton of the events a call to `loopGo` appends is strictly
alternating starting with a preparation; when the loop returns a nil
error (success or exhaustion) the skeleton ends with a preparation
token, i.e. there is no trailing delay; and at least one iteration runs
when iterations remain. -/
theorem loopGo_alt (env : Env) (cfg : RetryConfig) (action : String) :
    ∀ (remaining : Nat) (lastCode : String)
      (response : Option TerraformResponse) (lastError : Option String)
      (trace : List Ev),
      ∃ evs,
        (loopGo env cfg action remaining lastCode response lastError
            trace).trace = trace ++ evs ∧
        altRun Tok.P (psTokens evs) = true ∧
        ((loopGo env cfg action remaining lastCode response lastError
            trace).err = none →
          lastTok (psTokens evs) = some Tok.P ∨
            (evs = [] ∧ lastError = none)) ∧
        (1 ≤ remaining → psTokens evs ≠ []) := by
  intro remaining
  induction remaining with
  | zero =>
    intro lastCode response lastError trace
    refine ⟨[], by rw [loopGo_zero]; simp, by simp [altRun], ?_, by omega⟩
    intro he
    rw [loopGo_zero] at he
    exact Or.inr ⟨rfl, he⟩
  | succ n ih =>
    intro lastCode response lastError trace
    rcases hp : env.prepR (cfg.MaxAttempts - (n + 1)) with e | u
    · refine ⟨[Ev.prep (cfg.MaxAttempts - (n + 1)) lastCode], ?_, by simp, ?_, ?_⟩
      · rw [loopGo_prep_err env cfg action lastCode n response lastError trace
          e hp]
      · rw [loopGo_prep_err env cfg action lastCode n response lastError trace
          e hp]
        intro he
        cases he
      · intro _
        simp
    · cases u
      rcases hg : regenPhase env (cfg.MaxAttempts - (n + 1)) response lastCode
        with ⟨c, oe, evs⟩
      have hgevs : psTokens evs = [] := by
        have h := psTokens_regen_evs env (cfg.MaxAttempts - (n + 1)) response
          lastCode
        rw [hg] at h
        exact h
      rcases oe with _ | e
      · rcases hx : executeActionE env (cfg.MaxAttempts - (n + 1)) action
          with ⟨er, evs2⟩
        have hxevs : psTokens evs2 = [] := by
          have hh := executeActionE_snd env (cfg.MaxAttempts - (n + 1)) action
          rw [hx] at hh
          have hh2 : evs2 = remoteEv action (cfg.MaxAttempts - (n + 1)) := hh
          rw [hh2]
          exact psTokens_remoteEv action _
        rcases er with e2 | resp
        · obtain ⟨evs', heq, halt, hend, hne⟩ := ih c none (some e2)
            (trace ++ [Ev.prep (cfg.MaxAttempts - (n + 1)) lastCode] ++ evs
              ++ evs2 ++ [Ev.sleep (cfg.MaxAttempts - (n + 1))])
          rw [loopGo_exec_err env cfg action lastCode n response lastError trace
            e2 c evs evs2 hp hg hx]
          refine ⟨[Ev.prep (cfg.MaxAttempts - (n + 1)) lastCode] ++ evs ++ evs2
            ++ [Ev.sleep (cfg.MaxAttempts - (n + 1))] ++ evs', ?_, ?_, ?_, ?_⟩
          · rw [heq]
            simp [List.append_assoc]
          · simp only [List.cons_append, List.nil_append, psTokens_cons_prep,
              psTokens_append, psTokens_cons_sleep, hgevs, hxevs,
              List.append_nil, psTokens_nil, List.nil_append, altRun_PS]
            exact halt
          · intro he
            have hend' := hend he
            simp only [List.cons_append, List.nil_append, psTokens_cons_prep,
              psTokens_append, psTokens_cons_sleep, hgevs, hxevs,
              List.append_nil, psTokens_nil, List.nil_append]
            rcases hend' with hend' | ⟨hnil, hcon⟩
            · left
              have hne' : psTokens evs' ≠ [] := by
                intro hc
                rw [hc] at hend'
                cases hend'
              rw [lastTok_PS _ hne']
              exact hend'
            · cases hcon
          · intro _
            simp only [List.cons_append, psTokens_cons_prep]
            simp
        · cases hs : isCleanSuccess resp
          · match n with
            | 0 =>
              rw [loopGo_exhaust env cfg action lastCode response lastError
                trace c evs evs2 resp hp hg hx hs]
              refine ⟨[Ev.prep (cfg.MaxAttempts - 1) lastCode] ++ evs ++ evs2,
                by simp [List.append_assoc], ?_, ?_, ?_⟩
              · simp only [List.cons_append, List.nil_append, psTokens_cons_prep,
                  psTokens_append, hgevs, hxevs, List.append_nil]
                simp [altRun, flipTok]
              · intro _
                left
                simp only [List.cons_append, List.nil_append, psTokens_cons_prep,
                  psTokens_append, hgevs, hxevs, List.append_nil]
                rfl
              · intro _
                simp only [List.cons_append, psTokens_cons_prep]
                simp
            | m + 1 =>
              obtain ⟨evs', heq, halt, hend, hne⟩ := ih c (some resp) lastError
                (trace ++ [Ev.prep (cfg.MaxAttempts - (m + 2)) lastCode] ++ evs
                  ++ evs2 ++ [Ev.sleep (cfg.MaxAttempts - (m + 2))])
              rw [loopGo_fail_cont env cfg action lastCode m response lastError
                trace c evs evs2 resp hp hg hx hs]
              refine ⟨[Ev.prep (cfg.MaxAttempts - (m + 2)) lastCode] ++ evs
                ++ evs2 ++ [Ev.sleep (cfg.MaxAttempts - (m + 2))] ++ evs',
                ?_, ?_, ?_, ?_⟩
              · rw [heq]
                simp [List.append_assoc]
              · simp only [List.cons_append, List.nil_append, psTokens_cons_prep,
                  psTokens_append, psTokens_cons_sleep, hgevs, hxevs,
                  List.append_nil, psTokens_nil, List.nil_append, altRun_PS]
                exact halt
              · intro he
                have hend' := hend he
                simp only [List.cons_append, List.nil_append, psTokens_cons_prep,
                  psTokens_append, psTokens_cons_sleep, hgevs, hxevs,
                  List.append_nil, psTokens_nil, List.nil_append]
                rcases hend' with hend' | ⟨hnil, _⟩
                · left
                  have hne' : psTokens evs' ≠ [] := by
                    intro hc
                    rw [hc] at hend'
                    cases hend'
                  rw [lastTok_PS _ hne']
                  exact hend'
                · exfalso
                  have hx1 := hne (by omega)
                  rw [hnil] at hx1
                  exact hx1 rfl
              · intro _
                simp only [List.cons_append, psTokens_cons_prep]
                simp
          · rw [loopGo_success env cfg action lastCode n response lastError
              trace c evs evs2 resp hp hg hx hs]
            refine ⟨[Ev.prep (cfg.MaxAttempts - (n + 1)) lastCode] ++ evs
              ++ evs2, by simp [List.append_assoc], ?_, ?_, ?_⟩
            · simp only [List.cons_append, List.nil_append, psTokens_cons_prep,
                psTokens_append, hgevs, hxevs, List.append_nil]
              simp [altRun, flipTok]
            · intro _
              left
              simp only [List.cons_append, List.nil_append, psTokens_cons_prep,
                psTokens_append, hgevs, hxevs, List.append_nil]
              rfl
            · intro _
              simp only [List.cons_append, psTokens_cons_prep]
              simp
      · obtain ⟨evs', heq, halt, hend, hne⟩ := ih lastCode response (some e)
          (trace ++ [Ev.prep (cfg.MaxAttempts - (n + 1)) lastCode] ++ evs
            ++ [Ev.sleep (cfg.MaxAttempts - (n + 1))])
        rw [loopGo_gen_err env cfg action lastCode n response lastError trace
          e c evs hp hg]
        refine ⟨[Ev.prep (cfg.MaxAttempts - (n + 1)) lastCode] ++ evs
          ++ [Ev.sleep (cfg.MaxAttempts - (n + 1))] ++ evs', ?_, ?_, ?_, ?_⟩
        · rw [heq]
          simp [List.append_assoc]
        · simp only [List.cons_append, List.nil_append, psTokens_cons_prep,
            psTokens_append, psTokens_cons_sleep, hgevs, List.append_nil,
            psTokens_nil, List.nil_append, altRun_PS]
          exact halt
        · intro he
          have hend' := hend he
          simp only [List.cons_append, List.nil_append, psTokens_cons_prep,
            psTokens_append, psTokens_cons_sleep, hgevs, List.append_nil,
            psTokens_nil, List.nil_append]
          rcases hend' with hend' | ⟨hnil, hcon⟩
          · left
            have hne' : psTokens evs' ≠ [] := by
              intro hc
              rw [hc] at hend'
              cases hend'
            rw [lastTok_PS _ hne']
            exact hend'
          · cases hcon
        · intro _
          simp only [List.cons_append, psTokens_cons_prep]
          simp

theorem isPrefixCh_extend (pat : List Char) :
    ∀ (l post : List Char), isPrefixCh pat l = true →
      isPrefixCh pat (l ++ post) = true := by
  induction pat with
  | nil => intro l post _; rfl
  | cons a as ihp =>
    intro l post h
    cases l with
    | nil => cases h
    | cons b bs =>
      simp only [isPrefixCh, Bool.and_eq_true] at h
      simp only [List.cons_append, isPrefixCh, Bool.and_eq_true]
      exact ⟨h.1, ihp bs post h.2⟩

theorem hasSubstr_of_prefix (pat s : List Char)
    (h : isPrefixCh pat s = true) : hasSubstr pat s = true := by
  cases s with
  | nil => exact h
  | cons c rest =>
    simp only [hasSubstr, Bool.or_eq_true]
    exact Or.inl h

theorem hasSubstr_cons (pat s : List Char) (c : Char)
    (h : hasSubstr pat s = true) : hasSubstr pat (c :: s) = true := by
  simp only [hasSubstr, Bool.or_eq_true]
  exact Or.inr h

theorem hasSubstr_append_right (pat s : List Char) :
    ∀ pre, hasSubstr pat s = true → hasSubstr pat (pre ++ s) = true := by
  intro pre
  induction pre with
  | nil => intro h; exact h
  | cons c cs ihp => intro h; exact hasSubstr_cons pat (cs ++ s) c (ihp h)

theorem isPrefixCh_nil_right (pat : List Char)
    (h : isPrefixCh pat [] = true) : pat = [] := by
  cases pat with
  | nil => rfl
  | cons a as => cases h

theorem hasSubstr_nil_pat (s : List Char) : hasSubstr [] s = true := by
  cases s with
  | nil => rfl
  | cons c rest =>
    simp only [hasSubstr, Bool.or_eq_true]
    exact Or.inl rfl

theorem hasSubstr_append_left (pat : List Char) :
    ∀ (s post : List Char), hasSubstr pat s = true →
      hasSubstr pat (s ++ post) = true := by
  intro s
  induction s with
  | nil =>
    intro post h
    have hp := isPrefixCh_nil_right pat h
    rw [hp]
    exact hasSubstr_nil_pat post
  | cons c rest ihs =>
    intro post h
    simp only [hasSubstr, Bool.or_eq_true] at h
    rcases h with h | h
    · exact hasSubstr_of_prefix pat ((c :: rest) ++ post)
        (isPrefixCh_extend pat (c :: rest) post h)
    · exact hasSubstr_cons pat (rest ++ post) c (ihs post h)

theorem hasSubstr_of_infix (pat l pre post : List Char)
    (h : hasSubstr pat l = true) :
    hasSubstr pat (pre ++ l ++ post) = true := by
  rw [List.append_assoc]
  exact hasSubstr_append_right pat (l ++ post) pre
    (hasSubstr_append_left pat l post h)

theorem splitOnChar_ne_nil (sep : Char) (s : List Char) :
    splitOnChar sep s ≠ [] := by
  cases s with
  | nil => simp [splitOnChar]
  | cons c rest =>
    unfold splitOnChar
    split_ifs
    · simp
    · rcases h : splitOnChar sep rest with _ | ⟨x, xs⟩ <;> simp

theorem splitOnChar_head_prefix (sep : Char) :
    ∀ (s h : List Char) (t : List (List Char)),
      splitOnChar sep s = h :: t → ∃ post, s = h ++ post := by
  intro s
  induction s with
  | nil =>
    intro h t heq
    simp only [splitOnChar] at heq
    cases heq
    exact ⟨[], rfl⟩
  | cons c rest ihs =>
    intro h t heq
    unfold splitOnChar at heq
    split_ifs at heq with hc
    · cases heq
      exact ⟨c :: rest, rfl⟩
    · rcases hr : splitOnChar sep rest with _ | ⟨x, xs⟩
      · exact absurd hr (splitOnChar_ne_nil sep rest)
      · rw [hr] at heq
        injection heq with h1 h2
        obtain ⟨post, hpost⟩ := ihs x xs hr
        refine ⟨post, ?_⟩
        rw [← h1, List.cons_append, ← hpost]

theorem splitOnChar_mem_infix (sep : Char) :
    ∀ (s line : List Char), line ∈ splitOnChar sep s →
      ∃ pre post, s = pre ++ line ++ post := by
  intro s
  induction s with
  | nil =>
    intro line hmem
    simp only [splitOnChar, List.mem_singleton] at hmem
    exact ⟨[], [], by rw [hmem]; rfl⟩
  | cons c rest ihs =>
    intro line hmem
    unfold splitOnChar at hmem
    split_ifs at hmem with hc
    · rcases List.mem_cons.mp hmem with hline | hline
      · exact ⟨[], c :: rest, by rw [hline]; rfl⟩
      · obtain ⟨pre, post, hsp⟩ := ihs line hline
        exact ⟨c :: pre, post, by rw [List.cons_append, List.cons_append, ← hsp]⟩
    · rcases hr : splitOnChar sep rest with _ | ⟨x, xs⟩
      · exact absurd hr (splitOnChar_ne_nil sep rest)
      · rw [hr] at hmem
        rcases List.mem_cons.mp hmem with hline | hline
        · obtain ⟨post, hpost⟩ := splitOnChar_head_prefix sep rest x xs hr
          refine ⟨[], post, ?_⟩
          rw [hline, List.nil_append, List.cons_append, ← hpost]
        · obtain ⟨pre, post, hsp⟩ := ihs line
            (by rw [hr]; exact List.mem_cons.mpr (Or.inr hline))
          exact ⟨c :: pre, post,
            by rw [List.cons_append, List.cons_append, ← hsp]⟩

theorem no_marker_line (s line : List Char)
    (hs : hasSubstr markerChars s = false)
    (hmem : line ∈ splitOnChar newlineChar s) :
    hasSubstr markerChars line = false := by
  by_contra hcon
  have hline : hasSubstr markerChars line = true := by
    cases h : hasSubstr markerChars line
    · exact absurd h hcon
    · rfl
  obtain ⟨pre, post, hsp⟩ := splitOnChar_mem_infix newlineChar s line hmem
  have := hasSubstr_of_infix markerChars line pre post hline
  rw [← hsp] at this
  rw [this] at hs
  cases hs

theorem firstIdxAux_none (p : List Char → Bool) :
    ∀ lines, (∀ l ∈ lines, p l = false) → firstIdxAux p lines = none := by
  intro lines
  induction lines with
  | nil => intro _; rfl
  | cons l rest ihl =>
    intro h
    unfold firstIdxAux
    rw [h l (List.mem_cons_self l rest)]
    simp only [if_false, Bool.false_eq_true]
    rw [ihl fun x hx => h x (List.mem_cons.mpr (Or.inr hx))]
    rfl

theorem nthOpt_none_of_len :
    ∀ (l : List (List Char)) (n : Nat), l.length ≤ n → nthOpt l n = none := by
  intro l
  induction l with
  | nil => intro n _; cases n <;> rfl
  | cons x xs ihl =>
    intro n hn
    cases n with
    | zero => simp at hn
    | succ m =>
      simp only [List.length_cons, Nat.succ_le_succ_iff] at hn
      exact ihl m hn

theorem scanResource_short :
    ∀ (lines : List (List Char)), lines.length ≤ 2 → scanResource lines = [] := by
  intro lines
  match lines with
  | [] => intro _; rfl
  | [a] => intro _; rfl
  | [a, b] => intro _; rfl
  | a :: b :: c :: rest =>
    intro h
    simp only [List.length_cons] at h
    omega

theorem firstIdxAux_cons (p : List Char → Bool) (l : List Char)
    (rest : List (List Char)) :
    firstIdxAux p (l :: rest) =
      if p l then some 0 else (firstIdxAux p rest).map (· + 1) := rfl

theorem scanResource_eq_spec :
    ∀ (lines : List (List Char)),
      scanResource lines =
        match firstIdxAux (fun l => hasSubstr markerChars l) lines with
        | none => []
        | some i =>
          match nthOpt lines (i + 2) with
          | some l2 => trimChars l2
          | none => [] := by
  intro lines
  induction lines with
  | nil => rfl
  | cons l rest ihl =>
    cases hm : hasSubstr markerChars l
    · have hscan : scanResource (l :: rest) = scanResource rest := by
        match rest with
        | [] => rfl
        | [b] => rfl
        | b :: c :: t => simp [scanResource, hm]
      rw [hscan, ihl, firstIdxAux_cons, hm]
      rcases hf : firstIdxAux (fun l => hasSubstr markerChars l) rest
        with _ | i
      · rfl
      · rfl
    · rw [firstIdxAux_cons, hm]
      match rest with
      | [] => rfl
      | [b] => rfl
      | b :: c :: t =>
        have h1 : scanResource (l :: b :: c :: t) = trimChars c := by
          simp [scanResource, hm]
        rw [h1]
        rfl

theorem mk_match_helper (o : Option (List Char)) :
    (⟨match o with | some l2 => trimChars l2 | none => []⟩ : String)
      = (match o with
          | some l2 => some (⟨trimChars l2⟩ : String)
          | none => none).getD "" := by
  rcases o with _ | l2 <;> rfl

theorem parseTerraformError_resource (resp : TerraformResponse) :
    (parseTerraformError resp).Resource
      = (specAffectedResource resp.Error).getD "" := by
  unfold parseTerraformError specAffectedResource
  cases hm : hasSubstr markerChars resp.Error.data
  · simp only [hm, Bool.false_eq_true, if_false]
    have hnone : firstIdxAux (fun l => hasSubstr markerChars l)
        (splitOnChar newlineChar resp.Error.data) = none :=
      firstIdxAux_none _ _
        (fun l hl => no_marker_line resp.Error.data l hm hl)
    rw [hnone]
    rfl
  · simp only [hm, if_true]
    rw [scanResource_eq_spec]
    rcases hf : firstIdxAux (fun l => hasSubstr markerChars l)
        (splitOnChar newlineChar resp.Error.data) with _ | i
    · rfl
    · exact mk_match_helper
        (nthOpt (splitOnChar newlineChar resp.Error.data) (i + 2))

/-! Concrete collaborator environments used by counterexamples and
witnesses. -/

/-- All collaborators succeed; every executor call reports a failure
triple. -/
def envAllFail : Env :=
  { prepR := fun _ => .ok ()
    genR := fun _ => .ok ("g")
    planR := fun _ => .ok ⟨false, "o", "e"⟩
    applyR := fun _ => .ok ⟨false, "o", "e"⟩
    destroyR := fun _ => .ok ⟨false, "o", "e"⟩ }

/-- Destroy reports a failure triple on every attempt; generation
succeeds. -/
def envC2 : Env :=
  { prepR := fun _ => .ok ()
    genR := fun _ => .ok ("gen")
    planR := fun _ => .ok ⟨false, "out", "boom"⟩
    applyR := fun _ => .ok ⟨false, "out", "boom"⟩
    destroyR := fun _ => .ok ⟨false, "out", "boom"⟩ }

/-- Workspace preparation fails on every attempt. -/
def envC3 : Env :=
  { prepR := fun _ => .error ("clear code failed: boom")
    genR := fun _ => .ok ("g")
    planR := fun _ => .ok ⟨true, "o", ""⟩
    applyR := fun _ => .ok ⟨true, "o", ""⟩
    destroyR := fun _ => .ok ⟨true, "o", ""⟩ }

/-- The executor reports `succeeded = true` together with a non-empty
error text on every attempt. -/
def envC4 : Env :=
  { prepR := fun _ => .ok ()
    genR := fun _ => .ok ("g")
    planR := fun _ => .ok ⟨true, "out", "boom"⟩
    applyR := fun _ => .ok ⟨true, "out", "boom"⟩
    destroyR := fun _ => .ok ⟨true, "out", "boom"⟩ }

/-- Attempt 0 fails, attempt 1 cleanly succeeds; regeneration produces
different code. -/
def envC5 : Env :=
  { prepR := fun _ => .ok ()
    genR := fun _ => .ok ("newcode")
    planR := fun k =>
      if k = 0 then .ok ⟨false, "o1", "e1"⟩ else .ok ⟨true, "o2", ""⟩
    applyR := fun _ => .error ("conn")
    destroyR := fun _ => .error ("conn") }

/-- Generation fails on every attempt; the executor reports failures. -/
def envC6 : Env :=
  { prepR := fun _ => .ok ()
    genR := fun _ => .error ("genboom")
    planR := fun _ => .ok ⟨false, "o", "e"⟩
    applyR := fun _ => .ok ⟨false, "o", "e"⟩
    destroyR := fun _ => .ok ⟨false, "o", "e"⟩ }

/-- Every remote call fails at the transport level. -/
def envC9 : Env :=
  { prepR := fun _ => .ok ()
    genR := fun _ => .ok ("g")
    planR := fun _ => .error ("conn refused")
    applyR := fun _ => .error ("conn refused")
    destroyR := fun _ => .error ("conn refused") }

/-- Handler environment for the exhausted-run counterexample: the
pre-loop generation yields `"c0"`. -/
def henvC7 : HandlerEnv := ⟨envAllFail, .ok (""), .ok ("c0")⟩

/-- Request with an absent action (defaults to plan). -/
def reqC7 : TerraformRequest := ⟨"make a droplet", "", "w", ""⟩

/-- C1: for every environment and retry policy with `MaxAttempts = N ≥ 1`,
one run of `executeTerraformAction` performs at most `N` loop iterations
(preparations), invokes the remote action at most `N` times and the
generation collaborator at most `N - 1` times; the loop is a total
function of the bounded iteration count, so it never retries
indefinitely. -/
theorem claim_C1 (env : Env) (cfg : RetryConfig) (action code : String)
    (hM : 1 ≤ cfg.MaxAttempts) :
    prepCount (executeTerraformAction env cfg action code).trace
        ≤ cfg.MaxAttempts ∧
    remoteCount (executeTerraformAction env cfg action code).trace
        ≤ cfg.MaxAttempts ∧
    genCount (executeTerraformAction env cfg action code).trace
        ≤ cfg.MaxAttempts - 1 := by
  obtain ⟨h1, h2, _, h4⟩ :=
    loopGo_counts env cfg action cfg.MaxAttempts code none none []
  have h4' := h4 rfl
  unfold executeTerraformAction
  refine ⟨?_, ?_, ?_⟩
  · simpa using h1
  · simpa using h2
  · simpa using h4'

/-- C1 witness: the bounds hold for the hard-coded 5-attempt policy on a
concrete all-failing run. -/
theorem claim_C1_witness :
    1 ≤ goRetryConfig.MaxAttempts ∧
    (prepCount (executeTerraformAction envAllFail goRetryConfig planStr
          ("c")).trace ≤ goRetryConfig.MaxAttempts ∧
     remoteCount (executeTerraformAction envAllFail goRetryConfig planStr
          ("c")).trace ≤ goRetryConfig.MaxAttempts ∧
     genCount (executeTerraformAction envAllFail goRetryConfig planStr
          ("c")).trace ≤ goRetryConfig.MaxAttempts - 1) :=
  ⟨by decide, claim_C1 envAllFail goRetryConfig planStr ("c") (by decide)⟩

/-- C2 counterexample: a Destroy run whose first destroy call reports a
failure invokes the generation collaborator on each later attempt (four
times under the 5-attempt policy), and the retried destroys are prepared
with the generated code `"gen"` rather than an empty code field — the
claim says the generation collaborator is never invoked. -/
theorem claim_C2_counterexample :
    genCount (executeTerraformAction envC2 goRetryConfig destroyStr
        "").trace = 4 ∧
    Ev.prep 2 ("gen") ∈ (executeTerraformAction envC2 goRetryConfig
        destroyStr "").trace := by
  refine ⟨rfl, ?_⟩
  show Ev.prep 2 ("gen") ∈
    [Ev.prep 0 "", Ev.remoteDestroy 0, Ev.sleep 0,
     Ev.prep 1 "", Ev.genCall 1, Ev.remoteDestroy 1, Ev.sleep 1,
     Ev.prep 2 ("gen"), Ev.genCall 2, Ev.remoteDestroy 2, Ev.sleep 2,
     Ev.prep 3 ("gen"), Ev.genCall 3, Ev.remoteDestroy 3, Ev.sleep 3,
     Ev.prep 4 ("gen"), Ev.genCall 4, Ev.remoteDestroy 4]
  simp

/-- C2 amended: a Destroy run never invokes the generation collaborator
before the first attempt (no generation call carries attempt index 0 in
any run, whatever the environment); but when a destroy attempt returns a
failing executor result with attempts remaining, the loop does invoke
the generation collaborator on the next attempt. -/
theorem claim_C2_amended :
    (∀ (env : Env) (cfg : RetryConfig) (code : String),
      Ev.genCall 0 ∉ (executeTerraformAction env cfg destroyStr
          code).trace) ∧
    Ev.genCall 1 ∈ (executeTerraformAction envC2 goRetryConfig destroyStr
        "").trace := by
  constructor
  · intro env cfg code
    exact loopGo_no_gen0 env cfg destroyStr cfg.MaxAttempts code none none []
      (by simp)
  · show Ev.genCall 1 ∈
      [Ev.prep 0 "", Ev.remoteDestroy 0, Ev.sleep 0,
       Ev.prep 1 "", Ev.genCall 1, Ev.remoteDestroy 1, Ev.sleep 1,
       Ev.prep 2 ("gen"), Ev.genCall 2, Ev.remoteDestroy 2, Ev.sleep 2,
       Ev.prep 3 ("gen"), Ev.genCall 3, Ev.remoteDestroy 3, Ev.sleep 3,
       Ev.prep 4 ("gen"), Ev.genCall 4, Ev.remoteDestroy 4]
    simp

/-- C3 counterexample: under the 5-attempt policy, a preparation failure
on the first attempt terminates the whole run at once — the run returns
the error (a thrown error, which the handler maps to a 5xx), performs no
delay, no remote call, and starts no further attempt — whereas the claim
says the orchestrator proceeds to the next attempt after the policy
delay. -/
theorem claim_C3_counterexample :
    executeTerraformAction envC3 goRetryConfig planStr ("c")
      = ⟨none, some ("clear code failed: boom"), [Ev.prep 0 ("c")]⟩ := rfl

/-- C3 amended: on a PreparationError the orchestrator records no
attempt-local error but aborts the entire run immediately, returning the
preparation error as the run's error; the remote action is not invoked
on that attempt, no delay is waited, and no further attempt occurs
(shown here for the first attempt of a run; `loopGo_prep_err` gives the
same shape at any attempt). -/
theorem claim_C3_amended (env : Env) (cfg : RetryConfig)
    (action code e : String) (hM : 1 ≤ cfg.MaxAttempts)
    (hp : env.prepR 0 = .error e) :
    executeTerraformAction env cfg action code
      = ⟨none, some e, [Ev.prep 0 code]⟩ := by
  obtain ⟨m, hm⟩ : ∃ m, cfg.MaxAttempts = m + 1 :=
    ⟨cfg.MaxAttempts - 1, by omega⟩
  unfold executeTerraformAction
  rw [hm]
  have h0 : cfg.MaxAttempts - (m + 1) = 0 := by omega
  have hp' : env.prepR (cfg.MaxAttempts - (m + 1)) = .error e := by
    rw [h0]
    exact hp
  rw [loopGo_prep_err env cfg action code m none none [] e hp', h0]
  rfl

/-- C3 witness: the amended behaviour at a concrete preparation
failure. -/
theorem claim_C3_witness :
    1 ≤ goRetryConfig.MaxAttempts ∧
    envC3.prepR 0 = .error ("clear code failed: boom") ∧
    executeTerraformAction envC3 goRetryConfig applyStr ("w")
      = ⟨none, some ("clear code failed: boom"), [Ev.prep 0 ("w")]⟩ :=
  ⟨by decide, rfl,
    claim_C3_amended envC3 goRetryConfig applyStr ("w")
      ("clear code failed: boom") (by decide) rfl⟩

/-- C4 counterexample: when every attempt's executor call reports
`succeeded = true` together with a non-empty error — which the claim
itself counts as a reported failure — the exhausted run returns the last
result verbatim with its success flag `true`, not `false` as the claim
states. -/
theorem claim_C4_counterexample :
    (executeTerraformAction envC4 goRetryConfig planStr ("c")).resp
        = some ⟨true, "", "out", "boom"⟩ ∧
    (executeTerraformAction envC4 goRetryConfig planStr ("c")).err
        = none := ⟨rfl, rfl⟩

/-- C4 amended: if every attempt's remote action runs (preparation and
generation succeed throughout) and reports failure, the run terminates
returning the last attempt's result verbatim — success flag, output and
error exactly as the executor gave them, the success flag being false
exactly when the executor reported it false — as a normal return value
with a nil error, not a thrown error. -/
theorem claim_C4_amended (env : Env) (cfg : RetryConfig)
    (action code : String) (f : Nat → RemoteResp) (g : Nat → String)
    (hM : 1 ≤ cfg.MaxAttempts)
    (hprep : ∀ k, k < cfg.MaxAttempts → env.prepR k = .ok ())
    (hgen : ∀ k, env.genR k = .ok (g k))
    (hrem : ∀ k, k < cfg.MaxAttempts →
      remoteOracle env action k = .ok (f k))
    (hfail : ∀ k, k < cfg.MaxAttempts →
      isCleanSuccess (toResponse (f k)) = false) :
    (executeTerraformAction env cfg action code).resp
        = some (toResponse (f (cfg.MaxAttempts - 1))) ∧
    (executeTerraformAction env cfg action code).err = none := by
  unfold executeTerraformAction
  exact loopGo_allFail env cfg action f g cfg.MaxAttempts hM (le_refl _)
    (fun k _ hk2 => hprep k hk2) hgen (fun k _ hk2 => hrem k hk2)
    (fun k _ hk2 => hfail k hk2) code none none []

/-- C4 witness: the amended behaviour on a concrete all-failing run. -/
theorem claim_C4_witness :
    1 ≤ goRetryConfig.MaxAttempts ∧
    ((executeTerraformAction envAllFail goRetryConfig applyStr ("c")).resp
        = some (toResponse (⟨false, "o", "e"⟩ : RemoteResp)) ∧
     (executeTerraformAction envAllFail goRetryConfig applyStr ("c")).err
        = none) :=
  ⟨by decide,
    claim_C4_amended envAllFail goRetryConfig applyStr ("c")
      (fun _ => ⟨false, "o", "e"⟩) (fun _ => "g") (by decide)
      (fun _ _ => rfl) (fun _ => rfl) (fun _ _ => rfl) (fun _ _ => rfl)⟩

/-- C5 counterexample: attempt 1 fails, attempt 2's regeneration returns
`"newcode"` and the executor then cleanly succeeds; the loop returns the
result annotated with `"newcode"` although the workspace had been
prepared — and the remote action therefore executed — the staged code
`"oldcode"` on that attempt (second `prep` event): the annotation is not
the code that was executed on the succeeding attempt. -/
theorem claim_C5_counterexample :
    executeTerraformAction envC5 goRetryConfig planStr ("oldcode")
      = ⟨some ⟨true, "newcode", "o2", ""⟩, none,
          [Ev.prep 0 ("oldcode"), Ev.remotePlan 0, Ev.sleep 0,
           Ev.prep 1 ("oldcode"), Ev.genCall 1, Ev.remotePlan 1]⟩ ∧
    ("newcode" : String) ≠ "oldcode" := ⟨rfl, by decide⟩

/-- C5 amended: on a cleanly successful attempt the loop terminates
immediately — it appends only that attempt's events, so no attempt
`k + 1` starts and no further generation occurs — returning the result
with a nil error, annotated with the attempt's current code variable
(the output of the regeneration phase), even though the workspace was
prepared with the attempt's entry code, which is the code the executor
ran. -/
theorem claim_C5_amended (env : Env) (cfg : RetryConfig)
    (action lastCode : String) (remaining : Nat)
    (response : Option TerraformResponse) (lastError : Option String)
    (trace : List Ev) (newCode : String) (evs evs2 : List Ev)
    (resp : TerraformResponse)
    (hp : env.prepR (cfg.MaxAttempts - (remaining + 1)) = .ok ())
    (hg : regenPhase env (cfg.MaxAttempts - (remaining + 1)) response lastCode
        = (newCode, none, evs))
    (hx : executeActionE env (cfg.MaxAttempts - (remaining + 1)) action
        = (.ok resp, evs2))
    (hs : isCleanSuccess resp = true) :
    loopGo env cfg action (remaining + 1) lastCode response lastError trace
      = ⟨some { resp with Code := newCode }, none,
          trace ++ [.prep (cfg.MaxAttempts - (remaining + 1)) lastCode]
            ++ evs ++ evs2⟩ :=
  loopGo_success env cfg action lastCode remaining response lastError trace
    newCode evs evs2 resp hp hg hx hs

/-- C5 witness: the amended behaviour at the concrete succeeding attempt
of the counterexample run (attempt index 1 of the 5-attempt policy). -/
theorem claim_C5_witness :
    envC5.prepR (goRetryConfig.MaxAttempts - (3 + 1)) = .ok () ∧
    regenPhase envC5 (goRetryConfig.MaxAttempts - (3 + 1))
        (some ⟨false, "", "o1", "e1"⟩) ("oldcode")
      = ("newcode", none, [Ev.genCall 1]) ∧
    executeActionE envC5 (goRetryConfig.MaxAttempts - (3 + 1)) planStr
      = (.ok ⟨true, "", "o2", ""⟩, [Ev.remotePlan 1]) ∧
    isCleanSuccess ⟨true, "", "o2", ""⟩ = true ∧
    loopGo envC5 goRetryConfig planStr (3 + 1) ("oldcode")
        (some ⟨false, "", "o1", "e1"⟩) none []
      = ⟨some ⟨true, "newcode", "o2", ""⟩, none,
          [Ev.prep 1 ("oldcode"), Ev.genCall 1, Ev.remotePlan 1]⟩ := by
  refine ⟨rfl, rfl, rfl, rfl, ?_⟩
  have h := claim_C5_amended envC5 goRetryConfig planStr ("oldcode") 3
    (some ⟨false, "", "o1", "e1"⟩) none [] ("newcode") [Ev.genCall 1]
    [Ev.remotePlan 1] ⟨true, "", "o2", ""⟩ rfl rfl rfl rfl
  rw [h]
  rfl

/-- C6: when the generation collaborator fails on an attempt (with
attempts remaining), the loop records that error as the run's pending
error, waits the policy delay, and carries exactly the same code into
the next attempt: the next iteration's preparation event stages the
unchanged code. -/
theorem claim_C6 (env : Env) (cfg : RetryConfig) (action lastCode : String)
    (remaining : Nat) (resp : TerraformResponse) (lastError : Option String)
    (trace : List Ev) (e : String)
    (hle : remaining + 2 ≤ cfg.MaxAttempts)
    (ha : 0 < cfg.MaxAttempts - (remaining + 2))
    (hp : env.prepR (cfg.MaxAttempts - (remaining + 2)) = .ok ())
    (hg : env.genR (cfg.MaxAttempts - (remaining + 2)) = .error e) :
    loopGo env cfg action (remaining + 2) lastCode (some resp) lastError trace
      = loopGo env cfg action (remaining + 1) lastCode (some resp) (some e)
          (trace ++ [Ev.prep (cfg.MaxAttempts - (remaining + 2)) lastCode]
            ++ [Ev.genCall (cfg.MaxAttempts - (remaining + 2))]
            ++ [Ev.sleep (cfg.MaxAttempts - (remaining + 2))]) ∧
    ∃ rest,
      (loopGo env cfg action (remaining + 2) lastCode (some resp) lastError
          trace).trace
        = trace ++ [Ev.prep (cfg.MaxAttempts - (remaining + 2)) lastCode,
            Ev.genCall (cfg.MaxAttempts - (remaining + 2)),
            Ev.sleep (cfg.MaxAttempts - (remaining + 2)),
            Ev.prep (cfg.MaxAttempts - (remaining + 2) + 1) lastCode]
          ++ rest := by
  have hreg : regenPhase env (cfg.MaxAttempts - (remaining + 2)) (some resp)
      lastCode
      = (lastCode, some e, [Ev.genCall (cfg.MaxAttempts - (remaining + 2))]) := by
    unfold regenPhase
    rw [if_pos ha, hg]
  have hstep := loopGo_gen_err env cfg action lastCode (remaining + 1)
    (some resp) lastError trace e lastCode
    [Ev.genCall (cfg.MaxAttempts - (remaining + 2))] hp hreg
  refine ⟨hstep, ?_⟩
  rw [hstep]
  obtain ⟨rest, hrest⟩ := loopGo_succ_trace env cfg action remaining lastCode
    (some resp) (some e)
    (trace ++ [Ev.prep (cfg.MaxAttempts - (remaining + 2)) lastCode]
      ++ [Ev.genCall (cfg.MaxAttempts - (remaining + 2))]
      ++ [Ev.sleep (cfg.MaxAttempts - (remaining + 2))])
  have harith : cfg.MaxAttempts - (remaining + 1)
      = cfg.MaxAttempts - (remaining + 2) + 1 := by omega
  rw [harith] at hrest
  refine ⟨rest, ?_⟩
  rw [hrest]
  simp [List.append_assoc]

/-- C6 witness: the code-preserving regeneration failure at attempt 1 of
the 5-attempt policy, with concrete collaborators. -/
theorem claim_C6_witness :
    2 + 2 ≤ goRetryConfig.MaxAttempts ∧
    0 < goRetryConfig.MaxAttempts - (2 + 2) ∧
    envC6.prepR (goRetryConfig.MaxAttempts - (2 + 2)) = .ok () ∧
    envC6.genR (goRetryConfig.MaxAttempts - (2 + 2)) = .error ("genboom") ∧
    (loopGo envC6 goRetryConfig planStr (2 + 2) ("code0")
        (some ⟨false, "", "o", "e"⟩) none []
      = loopGo envC6 goRetryConfig planStr (2 + 1) ("code0")
          (some ⟨false, "", "o", "e"⟩) (some ("genboom"))
          ([] ++ [Ev.prep (goRetryConfig.MaxAttempts - (2 + 2)) ("code0")]
            ++ [Ev.genCall (goRetryConfig.MaxAttempts - (2 + 2))]
            ++ [Ev.sleep (goRetryConfig.MaxAttempts - (2 + 2))]) ∧
     ∃ rest,
       (loopGo envC6 goRetryConfig planStr (2 + 2) ("code0")
           (some ⟨false, "", "o", "e"⟩) none []).trace
         = [] ++ [Ev.prep (goRetryConfig.MaxAttempts - (2 + 2)) ("code0"),
             Ev.genCall (goRetryConfig.MaxAttempts - (2 + 2)),
             Ev.sleep (goRetryConfig.MaxAttempts - (2 + 2)),
             Ev.prep (goRetryConfig.MaxAttempts - (2 + 2) + 1) ("code0")]
           ++ rest) :=
  ⟨by decide, by decide, rfl, rfl,
    claim_C6 envC6 goRetryConfig planStr ("code0") 2 ⟨false, "", "o", "e"⟩
      none [] ("genboom") (by decide) (by decide) rfl rfl⟩

/-- C7 counterexample: the pre-loop generation yields `"c0"`, every
attempt fails, regeneration yields `"g"` from attempt 1 on; the final
failing attempt (index 4) was prepared with — and therefore ran — the
code `"g"`, yet the handler's reply carries `Code = "c0"`, the initial
variant, because the exhausted loop returns an empty code field which
the handler overwrites with the pre-loop code. -/
theorem claim_C7_counterexample :
    handleTerraformRequest henvC7 goRetryConfig reqC7
      = .ok (⟨false, "c0", "o", "e"⟩,
          [Ev.prep 0 ("c0"), Ev.remotePlan 0, Ev.sleep 0,
           Ev.prep 1 ("c0"), Ev.genCall 1, Ev.remotePlan 1, Ev.sleep 1,
           Ev.prep 2 ("g"), Ev.genCall 2, Ev.remotePlan 2, Ev.sleep 2,
           Ev.prep 3 ("g"), Ev.genCall 3, Ev.remotePlan 3, Ev.sleep 3,
           Ev.prep 4 ("g"), Ev.genCall 4, Ev.remotePlan 4]) ∧
    ("c0" : String) ≠ "g" := ⟨rfl, by decide⟩

/-- C7 amended: on an exhausted run the orchestrator returns the last
result with an empty `Code` field (`toResponse` leaves it at `""`), and
the HTTP handler then overwrites it with the initial pre-loop code
whenever that is non-empty — so the reply's code field carries the
initial code variant, not the code executed on the final failing
attempt. -/
theorem claim_C7_amended (henv : HandlerEnv) (cfg : RetryConfig)
    (req : TerraformRequest) (f : Nat → RemoteResp) (g : Nat → String)
    (c0 : String)
    (hM : 1 ≤ cfg.MaxAttempts)
    (hact : effectiveAction req = planStr)
    (hinit : henv.initialGen = .ok c0) (hc0 : c0 ≠ "")
    (hprep : ∀ k, k < cfg.MaxAttempts → henv.loopEnv.prepR k = .ok ())
    (hgen : ∀ k, henv.loopEnv.genR k = .ok (g k))
    (hrem : ∀ k, k < cfg.MaxAttempts →
      remoteOracle henv.loopEnv planStr k = .ok (f k))
    (hfail : ∀ k, k < cfg.MaxAttempts →
      isCleanSuccess (toResponse (f k)) = false) :
    (executeTerraformAction henv.loopEnv cfg planStr c0).resp
        = some (toResponse (f (cfg.MaxAttempts - 1))) ∧
    handleTerraformRequest henv cfg req
      = .ok ({ toResponse (f (cfg.MaxAttempts - 1)) with Code := c0 },
          (executeTerraformAction henv.loopEnv cfg planStr c0).trace) := by
  have hrun := loopGo_allFail henv.loopEnv cfg planStr f g cfg.MaxAttempts hM
    (le_refl _) (fun k _ hk2 => hprep k hk2) hgen
    (fun k _ hk2 => hrem k hk2) (fun k _ hk2 => hfail k hk2) c0 none none []
  have hresp : (executeTerraformAction henv.loopEnv cfg planStr c0).resp
      = some (toResponse (f (cfg.MaxAttempts - 1))) := hrun.1
  have herr : (executeTerraformAction henv.loopEnv cfg planStr c0).err
      = none := hrun.2
  refine ⟨hresp, ?_⟩
  unfold handleTerraformRequest
  rw [hact]
  have hne1 : ¬ (planStr = destroyStr) := by decide
  rw [if_neg hne1]
  have hne2 : ¬ (planStr = applyStr ∧ req.Description = "") := by
    intro hcon
    have : planStr = applyStr := hcon.1
    exact absurd this (by decide)
  simp only [hne2, if_false, if_neg hne2]
  rw [hinit]
  unfold finishRun
  simp only [herr, hresp, if_neg hc0]

/-- C7 witness: the amended behaviour on the concrete exhausted run of
the counterexample. -/
theorem claim_C7_witness :
    1 ≤ goRetryConfig.MaxAttempts ∧
    effectiveAction reqC7 = planStr ∧
    henvC7.initialGen = .ok ("c0") ∧
    ("c0" : String) ≠ "" ∧
    ((executeTerraformAction henvC7.loopEnv goRetryConfig planStr
          ("c0")).resp
        = some (toResponse (⟨false, "o", "e"⟩ : RemoteResp)) ∧
     handleTerraformRequest henvC7 goRetryConfig reqC7
       = .ok ({ toResponse (⟨false, "o", "e"⟩ : RemoteResp) with
             Code := ("c0" : String) },
           (executeTerraformAction henvC7.loopEnv goRetryConfig planStr
               ("c0")).trace)) :=
  ⟨by decide, rfl, rfl, by decide,
    claim_C7_amended henvC7 goRetryConfig reqC7
      (fun _ => ⟨false, "o", "e"⟩) (fun _ => "g") ("c0") (by decide) rfl rfl
      (by decide) (fun _ _ => rfl) (fun _ => rfl) (fun _ _ => rfl)
      (fun _ _ => rfl)⟩

/-- C9 counterexample: under the 5-attempt policy with a transport
error on every remote call, the run performs five policy-delay waits —
one per attempt, including one after the final attempt, just before the
loop exits with the error — whereas the claim says no delay occurs
after the final attempt. -/
theorem claim_C9_counterexample :
    executeTerraformAction envC9 goRetryConfig planStr ("c")
      = ⟨none, some ("conn refused"),
          [Ev.prep 0 ("c"), Ev.remotePlan 0, Ev.sleep 0,
           Ev.prep 1 ("c"), Ev.remotePlan 1, Ev.sleep 1,
           Ev.prep 2 ("c"), Ev.remotePlan 2, Ev.sleep 2,
           Ev.prep 3 ("c"), Ev.remotePlan 3, Ev.sleep 3,
           Ev.prep 4 ("c"), Ev.remotePlan 4, Ev.sleep 4]⟩ ∧
    sleepCount (executeTerraformAction envC9 goRetryConfig planStr
        ("c")).trace
      = prepCount (executeTerraformAction envC9 goRetryConfig planStr
          ("c")).trace := ⟨rfl, rfl⟩

/-- C9 amended: the preparation/sleep skeleton of every run strictly
alternates starting with a preparation — so exactly one policy-delay
wait separates any two consecutive attempts, no wait precedes the first
attempt, and at most one wait follows the last event; when the run
returns with a nil error (clean success or exhaustion by reported
failures) the skeleton ends with a preparation token, i.e. there is no
delay after the final attempt; but a run that ends in a transport or
generation error (non-nil error) may end on a delay taken after the
final attempt. -/
theorem claim_C9_amended (env : Env) (cfg : RetryConfig)
    (action code : String) (hM : 1 ≤ cfg.MaxAttempts) :
    altRun Tok.P (psTokens (executeTerraformAction env cfg action
        code).trace) = true ∧
    ((executeTerraformAction env cfg action code).err = none →
      lastTok (psTokens (executeTerraformAction env cfg action
          code).trace) = some Tok.P) := by
  obtain ⟨evs, heq, halt, hend, hne⟩ :=
    loopGo_alt env cfg action cfg.MaxAttempts code none none []
  have heq' : (executeTerraformAction env cfg action code).trace = evs := by
    unfold executeTerraformAction
    rw [heq]
    simp
  rw [heq']
  refine ⟨halt, fun he => ?_⟩
  have he' : (loopGo env cfg action cfg.MaxAttempts code none none []).err
      = none := he
  rcases hend he' with h | ⟨hnil, _⟩
  · exact h
  · exfalso
    refine (hne hM) ?_
    rw [hnil]
    rfl

/-- C9 witness: the amended delay placement on a concrete exhausted
run. -/
theorem claim_C9_witness :
    1 ≤ goRetryConfig.MaxAttempts ∧
    (altRun Tok.P (psTokens (executeTerraformAction envAllFail
        goRetryConfig planStr ("c")).trace) = true ∧
     ((executeTerraformAction envAllFail goRetryConfig planStr
          ("c")).err = none →
       lastTok (psTokens (executeTerraformAction envAllFail goRetryConfig
           planStr ("c")).trace) = some Tok.P)) :=
  ⟨by decide,
    claim_C9_amended envAllFail goRetryConfig planStr ("c") (by decide)⟩

/-- C10: for every action string other than plan/apply/destroy,
`executeAction` returns the error naming the unknown action without
invoking any remote operation; the inbound boundary maps only the empty
action to plan, so a run started with any other unrecognized string
reaches this error branch on every attempt: all `MaxAttempts`
iterations run, none performs a remote call or a generation call, and
the run's error is the unknown-action error. -/
theorem claim_C10 (env : Env) (cfg : RetryConfig) (action code : String)
    (h1 : action ≠ planStr) (h2 : action ≠ applyStr)
    (h3 : action ≠ destroyStr) (hM : 1 ≤ cfg.MaxAttempts)
    (hprep : ∀ k, env.prepR k = .ok ()) :
    executeActionE env 0 action
        = (.error (unknownActionMsg ++ action), []) ∧
    (∃ evs, executeTerraformAction env cfg action code
        = ⟨none, some (unknownActionMsg ++ action), evs⟩ ∧
      remoteCount evs = 0 ∧ prepCount evs = cfg.MaxAttempts ∧
      genCount evs = 0) ∧
    (∀ s : String, s ≠ "" → ∀ d c w : String,
      effectiveAction ⟨d, c, w, s⟩ = s) := by
  refine ⟨executeActionE_unknown env 0 action h1 h2 h3, ?_, ?_⟩
  · obtain ⟨evs, heq, hr, hp2, hg2⟩ := loopGo_unknown env cfg action h1 h2 h3
      hprep cfg.MaxAttempts hM code none []
    refine ⟨evs, ?_, hr, hp2, hg2⟩
    unfold executeTerraformAction
    rw [heq]
    simp
  · intro s hs d c w
    unfold effectiveAction
    simp [hs]

/-- C10 witness: the concrete unrecognized action `"frobnicate"`. -/
theorem claim_C10_witness :
    ("frobnicate" : String) ≠ planStr ∧
    ("frobnicate" : String) ≠ applyStr ∧
    ("frobnicate" : String) ≠ destroyStr ∧
    1 ≤ goRetryConfig.MaxAttempts ∧
    (executeActionE envAllFail 0 ("frobnicate")
        = (.error (unknownActionMsg ++ "frobnicate"), []) ∧
     (∃ evs, executeTerraformAction envAllFail goRetryConfig ("frobnicate")
          ("c")
        = ⟨none, some (unknownActionMsg ++ "frobnicate"), evs⟩ ∧
       remoteCount evs = 0 ∧ prepCount evs = goRetryConfig.MaxAttempts ∧
       genCount evs = 0) ∧
     (∀ s : String, s ≠ "" → ∀ d c w : String,
       effectiveAction ⟨d, c, w, s⟩ = s)) :=
  ⟨by decide, by decide, by decide, by decide,
    claim_C10 envAllFail goRetryConfig ("frobnicate") ("c") (by decide)
      (by decide) (by decide) (by decide) (fun _ => rfl)⟩

/-- C8: the Error Extractor is a total function: for every response it
returns a record whose message copies the response's error text, whose
raw output copies the response's output, and whose affected-resource
field equals the spec-worded extraction (`specAffectedResource`): the
whitespace-trimmed 2nd line after the first line of the error text
containing the marker token when that line exists within bounds, and
the empty string — Go's representation of an absent resource —
otherwise. -/
theorem claim_C8 (resp : TerraformResponse) :
    (parseTerraformError resp).Message = resp.Error ∧
    (parseTerraformError resp).TerraformOutput = resp.Output ∧
    (parseTerraformError resp).Resource
      = (specAffectedResource resp.Error).getD "" :=
  ⟨rfl, rfl, parseTerraformError_resource resp⟩
